import Mathlib

/-!
Verification development for the zimuzo email backend.

This file gives a shallow embedding, in Lean 4, of the algorithmic core of the
repository:

* `app/core/security.py` — HMAC webhook signing over a canonical (sorted-key,
  compact) JSON serialization;
* `app/core/events.py` — storing an event and queueing webhook deliveries;
* `app/workers/tasks_webhooks.py` — the Celery delivery task with bounded
  exponential-backoff retry;
* `email/backend/app/services/email_parser.py` — the regex extraction engine,
  LLM fallback, merge and intent classification.

Modelling conventions:

* Python floats are modelled by exact rationals `ℚ`.  Every confidence constant
  in the source is a short decimal, so the arithmetic is represented exactly.
* Python strings are modelled by `String` / `List Char`; only the ASCII
  behaviour of `str.lower`, `str.strip`, `\s`, `\w`, `\d` is modelled, which
  covers every string the source manipulates.
* External effects (the HMAC primitive, `json.loads`, the HTTP client, Celery's
  queue) are modelled as explicit parameters or as enumerated outcomes, so that
  every definition is executable.
-/

/-! ## Computable rational helpers

`Rat.add`, `Rat.mul` are `@[irreducible]` in Batteries, which blocks `decide`.
The definitions below compute via `mkRat` and are proved equal to the standard
operations (`qadd_eq`, `qmul_eq` in the theorem section). -/

/-- Addition on `ℚ`, computed through `mkRat` so that it kernel-reduces. -/
def qadd (a b : ℚ) : ℚ := mkRat (a.num * b.den + b.num * a.den) (a.den * b.den)

/-- Multiplication on `ℚ`, computed through `mkRat` so that it kernel-reduces. -/
def qmul (a b : ℚ) : ℚ := mkRat (a.num * b.num) (a.den * b.den)

/-- Minimum of two rationals (Python `min`). -/
def qmin (a b : ℚ) : ℚ := if a ≤ b then a else b

/-- Maximum of two rationals (Python `max`). -/
def qmax (a b : ℚ) : ℚ := if a ≤ b then b else a

/-- The decimal `n/100` as a rational: `pct 95` models the float literal `0.95`. -/
def pct (n : Nat) : ℚ := mkRat n 100

/-! ## JSON values

Payloads, parsed JSON responses and `json.dumps`/`json.loads` arguments are
modelled by `JValue`.  A JSON object is an insertion-ordered association list,
mirroring a Python `dict`.  JSON numbers are modelled as exact rationals. -/

/-- A JSON value as produced by Python's `json` module. -/
inductive JValue where
  | null : JValue
  | bool : Bool → JValue
  | num : ℚ → JValue
  | str : String → JValue
  | arr : List JValue → JValue
  | obj : List (String × JValue) → JValue

/-- Python `dict.get key default` on a parsed-JSON object: the binding for
`key`, or `default` if absent.  Parsed JSON dicts have unique keys (later
duplicate keys in the source text override earlier ones), represented here by
keeping the last binding for a key. -/
def jget (fields : List (String × JValue)) (key : String) (dflt : JValue) : JValue :=
  match (fields.filter (fun p => p.1 = key)).getLast? with
  | some p => p.2
  | none => dflt

/-- Python `str(...)` applied to a parsed-JSON value.  Containers and floats
render to text containing non-digit characters; only their non-digit-ness is
relevant downstream (the `isdigit` validation), so their exact text uses
Lean's `toString`. -/
def pyStr : JValue → String
  | .null => "None"
  | .bool true => "True"
  | .bool false => "False"
  | .num q => if q.den = 1 then toString q.num else toString q
  | .str s => s
  | .arr _ => "[...]"
  | .obj _ => "(dict)"

/-- Python `float(...)` applied to a parsed-JSON value: numbers and booleans
convert, everything else raises (`none`).  (A numeric string would also
convert in Python; the source never receives one from `json.loads` fields it
converts, and a non-numeric string raises, modelled by `none`.) -/
def pyFloat : JValue → Option ℚ
  | .num q => some q
  | .bool true => some 1
  | .bool false => some 0
  | _ => none

/-! ## Character/string helpers (ASCII model of the Python behaviour) -/

/-- Python/`re` whitespace `\s` (ASCII part). -/
def isPySpace (c : Char) : Bool :=
  c = ' ' || c = '\t' || c = '\n' || c = '\r' || c = '\x0b' || c = '\x0c'

/-- `re` digit class `[0-9]`. -/
def isDigitCh (c : Char) : Bool := '0' ≤ c && c ≤ '9'

/-- `re` word class `\w` = `[A-Za-z0-9_]` (ASCII model), for `\b`. -/
def isWordCh (c : Char) : Bool :=
  ('a' ≤ c && c ≤ 'z') || ('A' ≤ c && c ≤ 'Z') || isDigitCh c || c = '_'

/-- ASCII lower-casing of a character (model of `str.lower` / `re.IGNORECASE`). -/
def lowerCh (c : Char) : Char :=
  if 'A' ≤ c && c ≤ 'Z' then Char.ofNat (c.toNat + 32) else c

/-- Lower-case a character list. -/
def lowerList (s : List Char) : List Char := s.map lowerCh

/-- Character at an index, if in range. -/
def charAt (t : List Char) (i : Nat) : Option Char := (t.drop i).headD ' ' |> some |>.filter (fun _ => i < t.length)

/-- Python slice `t[a:b]` on a character list. -/
def sliceChars (t : List Char) (a b : Nat) : List Char := (t.take b).drop a

/-- Python `str.strip()` (ASCII whitespace model). -/
def pyStrip (s : List Char) : List Char :=
  ((s.dropWhile isPySpace).reverse.dropWhile isPySpace).reverse

/-- Whether `pat` occurs at position `i` of `t`, comparing case-insensitively. -/
def litAt (t pat : List Char) (i : Nat) : Bool :=
  lowerList (sliceChars t i (i + pat.length)) = lowerList pat && i + pat.length ≤ t.length

/-- Python `needle in haystack` (case-sensitive substring test). -/
def containsSub (haystack needle : List Char) : Bool :=
  (List.range (haystack.length + 1)).any (fun i =>
    sliceChars haystack i (i + needle.length) = needle && i + needle.length ≤ haystack.length)

/-- Python `s.startswith(p)`. -/
def startsWithStr (s p : String) : Bool :=
  s.data.take p.length = p.data

/-- Python `s.endswith(p)`. -/
def endsWithStr (s p : String) : Bool :=
  s.data.drop (s.length - p.length) = p.data && p.length ≤ s.length

/-! ## Signature primitive (`app/core/security.py`)

```python
def sign_webhook_payload(payload: dict, secret: str) -> str:
    if not secret:
        return ""
    message = json.dumps(payload, separators=(",", ":"), sort_keys=True).encode()
    return hmac.new(secret.encode(), message, hashlib.sha256).hexdigest()

def verify_webhook(payload: str, signature: str, secret: str) -> bool:
    if not secret:
        return False
    expected_signature = sign_webhook_payload(json.loads(payload), secret)
    return hmac.compare_digest(expected_signature, signature)
```

`hmac.new(..).hexdigest()` is an external deterministic primitive; it is passed
in as a function `hmacHex : secret → message → hex digest`.  `json.loads` is
likewise passed in (`none` models a parse failure, which in the source would
raise).  `json.dumps(payload, separators=(",", ":"), sort_keys=True)` is
modelled exactly by `jdumps`: keys sorted at every object, no whitespace. -/

/-- Lower-case hex digit. -/
def hexDigit (n : Nat) : Char := (String.data "0123456789abcdef").getD n '0'

/-- `\uXXXX` escape used by `json.dumps` (`ensure_ascii=True` default). -/
def uEscape (n : Nat) : String :=
  String.mk ['\\', 'u', hexDigit (n / 4096 % 16), hexDigit (n / 256 % 16),
             hexDigit (n / 16 % 16), hexDigit (n % 16)]

/-- JSON string escaping as performed by `json.dumps` with default
`ensure_ascii=True`: quote, backslash and the named control characters get
two-character escapes, other control characters and non-ASCII characters get
`\uXXXX`. -/
def escapeJson (s : String) : String :=
  String.join (s.data.map (fun c =>
    if c = '"' then "\\\""
    else if c = '\\' then "\\\\"
    else if c = '\n' then "\\n"
    else if c = '\t' then "\\t"
    else if c = '\r' then "\\r"
    else if c.toNat < 32 || c.toNat > 126 then uEscape c.toNat
    else String.mk [c]))

/-- Stable sort of rendered object entries by key (Python `sort_keys=True`;
`sorted` is stable, and `insertionSort` is the stable sort). -/
def sortPairsByKey (l : List (String × String)) : List (String × String) :=
  List.insertionSort (fun a b => a.1 ≤ b.1) l

mutual

/-- `json.dumps(v, separators=(",", ":"), sort_keys=True)`: compact separators
and keys sorted at every object level.  (Number rendering for non-integer
rationals stands in for Python's float `repr`; the claims never compare
rendered numbers.) -/
def jdumps : JValue → String
  | .null => "null"
  | .bool true => "true"
  | .bool false => "false"
  | .num q => if q.den = 1 then toString q.num else toString q
  | .str s => "\"" ++ escapeJson s ++ "\""
  | .arr l => "[" ++ String.intercalate "," (jdumpsList l) ++ "]"
  | .obj l =>
      "\x7b" ++
        String.intercalate ","
          ((sortPairsByKey (jdumpsPairs l)).map
            (fun p => "\"" ++ escapeJson p.1 ++ "\":" ++ p.2)) ++
      "\x7d"

/-- Render each element of a JSON array. -/
def jdumpsList : List JValue → List String
  | [] => []
  | v :: rest => jdumps v :: jdumpsList rest

/-- Render the value of each object entry, keeping its key. -/
def jdumpsPairs : List (String × JValue) → List (String × String)
  | [] => []
  | p :: rest => (p.1, jdumps p.2) :: jdumpsPairs rest

end

/-- `sign_webhook_payload` from `app/core/security.py`.  `hmacHex secret
message` stands for `hmac.new(secret.encode(), message, sha256).hexdigest()`.
An empty secret short-circuits to the empty string before any HMAC work. -/
def sign_webhook_payload (hmacHex : String → String → String)
    (payload : List (String × JValue)) (secret : String) : String :=
  if secret = "" then ""
  else hmacHex secret (jdumps (JValue.obj payload))

/-- `verify_webhook` from `app/core/security.py`.  `jsonLoads` stands for
`json.loads`; `none` is a parse failure, which propagates as an exception in
the source, modelled by the `Option` result.  `hmac.compare_digest` is
string equality (its constant-time execution has no functional content). -/
def verify_webhook (hmacHex : String → String → String)
    (jsonLoads : String → Option (List (String × JValue)))
    (payload signature secret : String) : Option Bool :=
  if secret = "" then some false
  else
    match jsonLoads payload with
    | none => none
    | some parsed =>
        some (sign_webhook_payload hmacHex parsed secret = signature)

/-! ## Event recorder (`app/core/events.py`)

`store_event_and_queue_webhooks` (async) and `store_event_and_queue_webhooks_sync`
perform: create `Event`, `db.add`, commit, (sync only: refresh), select active
webhooks, and enqueue one `deliver_webhook_task.delay(...)` per hook; any
exception is caught, logged, rolled back and re-raised (the async variant also
closes the session in a `finally`).  The embedding records the observable
actions as a trace; each fallible collaborator call — `add`, `commit`,
`refresh`, and the webhook `select` — is driven by an explicit outcome
parameter (`false`/`none` = the call raised). -/

/-- An active webhook registration as consumed by the event recorder
(`Webhook.target_url`, `Webhook.secret_token`). -/
structure WebhookRow where
  target_url : String
  secret_token : Option String
deriving DecidableEq, Repr

/-- Observable actions of the event-recorder functions, in program order. -/
inductive EvAction where
  | addEvent : EvAction
  | commit : EvAction
  | refreshEvent : EvAction
  | queryHooks : EvAction
  | enqueueDelivery : String → String → EvAction
  | rollback : EvAction
  | closeSession : EvAction
deriving DecidableEq, Repr

/-- The async `store_event_and_queue_webhooks`: the emitted action trace and
whether the call raised.  `addOk`/`commitOk` say whether `db.add`/`db.commit`
succeeded; `hooksRes` is the result of the webhook `select` (`none` = it
raised).  A successful commit emits `.commit`; the delivery loop emits one
`.enqueueDelivery target_url (secret_token or "")` per returned hook; the
`except` branch emits `.rollback` and re-raises; `finally` emits
`.closeSession`. -/
def store_event_and_queue_webhooks (addOk commitOk : Bool)
    (hooksRes : Option (List WebhookRow)) : List EvAction × Bool :=
  if ¬addOk then
    ([EvAction.rollback, EvAction.closeSession], true)
  else if ¬commitOk then
    ([EvAction.addEvent, EvAction.rollback, EvAction.closeSession], true)
  else
    match hooksRes with
    | none =>
        ([EvAction.addEvent, EvAction.commit, EvAction.rollback,
          EvAction.closeSession], true)
    | some hooks =>
        (EvAction.addEvent :: EvAction.commit :: EvAction.queryHooks ::
          (hooks.map (fun wh =>
            EvAction.enqueueDelivery wh.target_url (wh.secret_token.getD ""))
           ++ [EvAction.closeSession]), false)

/-- The sync `store_event_and_queue_webhooks_sync`: identical, plus a
`db.refresh(event)` (fallible, after the commit) and no `finally: close`. -/
def store_event_and_queue_webhooks_sync (addOk commitOk refreshOk : Bool)
    (hooksRes : Option (List WebhookRow)) : List EvAction × Bool :=
  if ¬addOk then
    ([EvAction.rollback], true)
  else if ¬commitOk then
    ([EvAction.addEvent, EvAction.rollback], true)
  else if ¬refreshOk then
    ([EvAction.addEvent, EvAction.commit, EvAction.rollback], true)
  else
    match hooksRes with
    | none =>
        ([EvAction.addEvent, EvAction.commit, EvAction.refreshEvent,
          EvAction.rollback], true)
    | some hooks =>
        (EvAction.addEvent :: EvAction.commit :: EvAction.refreshEvent ::
          EvAction.queryHooks ::
          hooks.map (fun wh =>
            EvAction.enqueueDelivery wh.target_url (wh.secret_token.getD "")),
         false)

/-- Whether an action is a delivery enqueue. -/
def EvAction.isEnqueue : EvAction → Bool
  | .enqueueDelivery _ _ => true
  | _ => false

/-! ## Delivery worker (`app/workers/tasks_webhooks.py`)

```python
@celery_app.task(bind=True, max_retries=8, default_retry_delay=2)
def deliver_webhook_task(self, target_url, secret_token, payload, event_id=None):
    try:
        ... client.post(...); r.raise_for_status(); return "delivered"
    except httpx.HTTPStatusError as exc:
        backoff = 2**self.request.retries ...
        raise self.retry(exc=exc, countdown=backoff)
    except httpx.RequestError as exc:   # same backoff/retry
    except Exception as exc:            # same backoff/retry
```

One HTTP attempt is driven by an `Outcome`.  Celery's documented
`Task.retry` semantics with `max_retries = 8`: the current attempt runs with
`self.request.retries = r`; `retry` re-schedules with `retries = r + 1` unless
`r + 1 > max_retries`, in which case it raises `MaxRetriesExceededError` (here:
the original exception) and the task fails permanently (Exhausted). -/

/-- Outcome of one HTTP delivery attempt. -/
inductive Outcome where
  | ok2xx : Outcome
  | httpStatusErr : Outcome
  | requestErr : Outcome
  | otherErr : Outcome
deriving DecidableEq, Repr

/-- `max_retries=8` from the task decorator. -/
def webhookMaxRetries : Nat := 8

/-- Result of one execution of the task body at retry counter `retries`. -/
inductive StepRes where
  | delivered : StepRes
  | retrySched : Nat → StepRes
  | exhausted : StepRes
deriving DecidableEq, Repr

/-- One execution of `deliver_webhook_task` with `self.request.retries =
retries`: a 2xx response returns `"delivered"`; any failure computes
`backoff = 2**retries` and calls `self.retry(countdown=backoff)`, which
schedules a retry, or raises (Exhausted) once `retries + 1 > max_retries`. -/
def deliver_webhook_step (retries : Nat) (o : Outcome) : StepRes :=
  match o with
  | .ok2xx => .delivered
  | _ =>
      if retries + 1 > webhookMaxRetries then .exhausted
      else .retrySched (2 ^ retries)

/-- Terminal status of a delivery run. -/
inductive DeliveryFinal where
  | delivered : DeliveryFinal
  | exhausted : DeliveryFinal
  | inFlight : DeliveryFinal
deriving DecidableEq, Repr

/-- Trace of a delivery task: number of HTTP attempts issued, the backoff
countdowns of its RetryScheduled transitions, and its final status. -/
structure DeliveryRun where
  attempts : Nat
  countdowns : List Nat
  final : DeliveryFinal
deriving DecidableEq, Repr

/-- Run `deliver_webhook_task` starting at retry counter `retries` against a
stream of attempt outcomes.  Each consumed outcome is one HTTP attempt; the
run stops at a terminal state, or is still in flight when the stream ends. -/
def deliver_webhook_run (retries : Nat) : List Outcome → DeliveryRun
  | [] => ⟨0, [], .inFlight⟩
  | o :: rest =>
      match deliver_webhook_step retries o with
      | .delivered => ⟨1, [], .delivered⟩
      | .exhausted => ⟨1, [], .exhausted⟩
      | .retrySched c =>
          let r := deliver_webhook_run (retries + 1) rest
          ⟨r.attempts + 1, c :: r.countdowns, r.final⟩

/-! ## Regex engine

The extraction engine's patterns use: case-insensitive literals, character
classes with counted/greedy/lazy repetition, alternation, optionals, one
capture group, `^`/`$` (MULTILINE), `\b`, and one lookahead.  `Re` covers
exactly these constructs; `mmatch` enumerates candidate match ends in
backtracking priority order (leftmost alternative first, greedy longest
first, lazy shortest first), so the head of the list is the match Python's
`re` engine reports.  Every repetition in the source's patterns is over a
single-character class, so repetition needs no recursion. -/

/-- Regex abstract syntax (the fragment used by `email_parser.py`). -/
inductive Re where
  | lit : String → Re
  | cls : (Char → Bool) → Nat → Option Nat → Bool → Re
  | seq : Re → Re → Re
  | alt : Re → Re → Re
  | opt : Re → Re
  | grp : Re → Re
  | bol : Re
  | eol : Re
  | wb : Re
  | look : Re → Re

/-- Character at an index. -/
def chAt (t : List Char) (i : Nat) : Option Char := (t.drop i).head?

/-- Length of the maximal run of `p`-characters starting at `i`. -/
def runLen (p : Char → Bool) (t : List Char) (i : Nat) : Nat :=
  ((t.drop i).takeWhile p).length

/-- `\b`: exactly one side of position `i` is a word character. -/
def boundaryAt (t : List Char) (i : Nat) : Bool :=
  let before := match (if i = 0 then none else chAt t (i - 1)) with
    | some c => isWordCh c
    | none => false
  let after := match chAt t i with
    | some c => isWordCh c
    | none => false
  before != after

/-- All candidate `(match end, group span)` results of matching `re` at
position `i`, in backtracking priority order. -/
def mmatch (t : List Char) : Re → Nat → Option (Nat × Nat) → List (Nat × Option (Nat × Nat))
  | .lit s, i, g => if litAt t s.data i then [(i + s.length, g)] else []
  | .cls p lo hi lzy, i, g =>
      let l := runLen p t i
      let m := match hi with
        | none => l
        | some h => min h l
      if m < lo then []
      else
        let ks := (List.range (m + 1 - lo)).map (fun k => lo + k)
        let ks := if lzy then ks else ks.reverse
        ks.map (fun k => (i + k, g))
  | .seq a b, i, g => (mmatch t a i g).bind (fun r => mmatch t b r.1 r.2)
  | .alt a b, i, g => mmatch t a i g ++ mmatch t b i g
  | .opt a, i, g => mmatch t a i g ++ [(i, g)]
  | .grp a, i, g => (mmatch t a i g).map (fun r => (r.1, some (i, r.1)))
  | .bol, i, g => if i = 0 || chAt t (i - 1) = some '\n' then [(i, g)] else []
  | .eol, i, g => if i = t.length || chAt t i = some '\n' then [(i, g)] else []
  | .wb, i, g => if boundaryAt t i then [(i, g)] else []
  | .look a, i, g => if (mmatch t a i g).isEmpty then [] else [(i, g)]

/-- A reported match: span and the span of capture group 1 (if set). -/
structure MatchInfo where
  mstart : Nat
  mend : Nat
  mgroup : Option (Nat × Nat)
deriving DecidableEq, Repr

/-- The match Python's engine reports at position `i`, if any. -/
def reFirstAt (t : List Char) (re : Re) (i : Nat) : Option MatchInfo :=
  match (mmatch t re i none).head? with
  | some r => some ⟨i, r.1, r.2⟩
  | none => none

/-- `re.finditer`: leftmost matches, continuing from each match's end (one
position further for an empty match). -/
def finditerAux (t : List Char) (re : Re) : Nat → Nat → List MatchInfo
  | _, 0 => []
  | i, fuel + 1 =>
      if i > t.length then []
      else
        match reFirstAt t re i with
        | some m => m :: finditerAux t re (if m.mend > i then m.mend else i + 1) fuel
        | none => finditerAux t re (i + 1) fuel

/-- All non-overlapping matches of `re` in `t`, left to right. -/
def finditer (re : Re) (t : List Char) : List MatchInfo :=
  finditerAux t re 0 (t.length + 1)

/-- `re.search`: the first match anywhere in `t`. -/
def reSearch (re : Re) (t : List Char) : Option MatchInfo :=
  (finditer re t).head?

/-- `match.group(1) if match.groups() else match.group(0)` as used in
`extract_otps_regex`. -/
def matchGroupText (t : List Char) (m : MatchInfo) : String :=
  match m.mgroup with
  | some (a, b) => (sliceChars t a b).asString
  | none => (sliceChars t m.mstart m.mend).asString

/-- Left-nested alternation `(a|b|c|...)` preserving source order. -/
def altList (a : Re) (rest : List Re) : Re := rest.foldl Re.alt a

/-- Left-nested concatenation. -/
def seqList (a : Re) (rest : List Re) : Re := rest.foldl Re.seq a

/-- A single-character class. -/
def cls1 (p : Char → Bool) : Re := Re.cls p 1 (some 1) false

/-- Greedy `+` over a character class. -/
def plusC (p : Char → Bool) : Re := Re.cls p 1 none false

/-- Greedy `*` over a character class. -/
def starC (p : Char → Bool) : Re := Re.cls p 0 none false

/-- Lazy `*?` over a character class. -/
def lazyStarC (p : Char → Bool) : Re := Re.cls p 0 none true

/-- Counted repetition over a character class. -/
def repC (p : Char → Bool) (lo hi : Nat) : Re := Re.cls p lo (some hi) false

/-- `[\s:]`. -/
def isSpaceColon (c : Char) : Bool := isPySpace c || c = ':'

/-- `[^>]`. -/
def isNotGt (c : Char) : Bool := c != '>'

/-- `.` without DOTALL: anything but a newline. -/
def isNotNewline (c : Char) : Bool := c != '\n'

/-- `[^\s]`. -/
def isNotSpace (c : Char) : Bool := !(isPySpace c)

/-- `[^\s<>"]` (the generic-link class). -/
def isUrlCh (c : Char) : Bool := !(isPySpace c) && c != '<' && c != '>' && c != '"'

/-! ## Extraction engine data model (`email_parser.py`) -/

/-- `LinkType` enum. -/
inductive LinkType where
  | verification : LinkType
  | reset_password : LinkType
  | confirmation : LinkType
  | unsubscribe : LinkType
  | magic_link : LinkType
  | generic : LinkType
deriving DecidableEq, Repr

/-- The enum's string `.value`. -/
def linkTypeValue : LinkType → String
  | .verification => "verification"
  | .reset_password => "reset_password"
  | .confirmation => "confirmation"
  | .unsubscribe => "unsubscribe"
  | .magic_link => "magic_link"
  | .generic => "generic"

/-- `LinkType(s)` with the source's `except ValueError: GENERIC` fallback. -/
def parseLinkType (s : String) : LinkType :=
  if s = "verification" then .verification
  else if s = "reset_password" then .reset_password
  else if s = "confirmation" then .confirmation
  else if s = "unsubscribe" then .unsubscribe
  else if s = "magic_link" then .magic_link
  else .generic

/-- `OTPCode` dataclass.  `position` is `-1` for LLM-extracted codes. -/
structure OTPCode where
  code : String
  confidence : ℚ
  context : String
  position : Int
  method : String
deriving DecidableEq, Repr

/-- `ConfirmationLink` dataclass. -/
structure ConfirmationLink where
  url : String
  link_type : LinkType
  confidence : ℚ
  text : String
  context : String
  method : String
deriving DecidableEq, Repr

/-! ## OTP regex patterns (`EmailParser.otp_patterns`, in source order) -/

/-- `(?:otp|code|verification code|passcode|pin)[\s:]+([0-9]{4,8})`, 0.95. -/
def otpPat1 : Re :=
  seqList (altList (Re.lit "otp")
      [Re.lit "code", Re.lit "verification code", Re.lit "passcode", Re.lit "pin"])
    [plusC isSpaceColon, Re.grp (Re.cls isDigitCh 4 (some 8) false)]

/-- `your (?:otp|code|verification code) is[\s:]+([0-9]{4,8})`, 0.95. -/
def otpPat2 : Re :=
  seqList (Re.lit "your ")
    [altList (Re.lit "otp") [Re.lit "code", Re.lit "verification code"],
     Re.lit " is", plusC isSpaceColon, Re.grp (Re.cls isDigitCh 4 (some 8) false)]

/-- `([0-9]{6})\s+is your (?:otp|code|verification code)`, 0.95. -/
def otpPat3 : Re :=
  seqList (Re.grp (repC isDigitCh 6 6))
    [plusC isPySpace, Re.lit "is your ",
     altList (Re.lit "otp") [Re.lit "code", Re.lit "verification code"]]

/-- `(?:use|enter|type)[\s]+(?:code|otp)?[\s:]+([0-9]{4,8})`, 0.90. -/
def otpPat4 : Re :=
  seqList (altList (Re.lit "use") [Re.lit "enter", Re.lit "type"])
    [plusC isPySpace, Re.opt (altList (Re.lit "code") [Re.lit "otp"]),
     plusC isSpaceColon, Re.grp (Re.cls isDigitCh 4 (some 8) false)]

/-- `([0-9]{6})\s+to (?:verify|confirm|complete)`, 0.90. -/
def otpPat5 : Re :=
  seqList (Re.grp (repC isDigitCh 6 6))
    [plusC isPySpace, Re.lit "to ",
     altList (Re.lit "verify") [Re.lit "confirm", Re.lit "complete"]]

/-- `(?:^|\n|\s)([0-9]{6})(?:\n|$|\s)(?=.*(?:verify|login|security|authentication))`,
0.85 (MULTILINE `^`/`$`; `.` excludes newlines). -/
def otpPat6 : Re :=
  seqList (altList Re.bol [Re.lit "\n", cls1 isPySpace])
    [Re.grp (repC isDigitCh 6 6),
     altList (Re.lit "\n") [Re.eol, cls1 isPySpace],
     Re.look (Re.seq (starC isNotNewline)
       (altList (Re.lit "verify")
         [Re.lit "login", Re.lit "security", Re.lit "authentication"]))]

/-- `<strong[^>]*>([0-9]{4,8})</strong>`, 0.85. -/
def otpPat7 : Re :=
  seqList (Re.lit "<strong")
    [starC isNotGt, Re.lit ">", Re.grp (Re.cls isDigitCh 4 (some 8) false),
     Re.lit "</strong>"]

/-- `<b>([0-9]{4,8})</b>`, 0.85. -/
def otpPat8 : Re :=
  seqList (Re.lit "<b>")
    [Re.grp (Re.cls isDigitCh 4 (some 8) false), Re.lit "</b>"]

/-- `\b([0-9]{6})\b`, 0.60. -/
def otpPat9 : Re := seqList Re.wb [Re.grp (repC isDigitCh 6 6), Re.wb]

/-- `\b([0-9]{4})\b`, 0.40. -/
def otpPat10 : Re := seqList Re.wb [Re.grp (repC isDigitCh 4 4), Re.wb]

/-- `self.otp_patterns`: `(pattern, base_confidence)` in source order. -/
def otp_patterns : List (Re × ℚ) :=
  [(otpPat1, pct 95), (otpPat2, pct 95), (otpPat3, pct 95),
   (otpPat4, pct 90), (otpPat5, pct 90),
   (otpPat6, pct 85), (otpPat7, pct 85), (otpPat8, pct 85),
   (otpPat9, pct 60), (otpPat10, pct 40)]

/-! ## Link regex patterns (`EmailParser.link_patterns`, in source order) -/

/-- `https?://[^\s]+` followed by a literal path marker and `[^\s]*`. -/
def urlPat (marker : String) : Re :=
  seqList (Re.lit "http")
    [Re.opt (Re.lit "s"), Re.lit "://", plusC isNotSpace, Re.lit marker,
     starC isNotSpace]

/-- `self.link_patterns`: `(pattern, link_type, base_confidence)`. -/
def link_patterns : List (Re × LinkType × ℚ) :=
  [(urlPat "/verify", LinkType.verification, pct 95),
   (urlPat "/confirm", LinkType.confirmation, pct 95),
   (urlPat "/activate", LinkType.verification, pct 95),
   (urlPat "/validation", LinkType.verification, pct 90),
   (urlPat "/reset", LinkType.reset_password, pct 95),
   (urlPat "/password", LinkType.reset_password, pct 85),
   (seqList (Re.lit "http")
      [Re.opt (Re.lit "s"), Re.lit "://", plusC isNotSpace, Re.lit "/auth",
       starC isNotSpace, Re.lit "token", starC isNotSpace],
    LinkType.magic_link, pct 90),
   (urlPat "/magic", LinkType.magic_link, pct 90),
   (urlPat "/unsubscribe", LinkType.unsubscribe, pct 95),
   (seqList (Re.lit "http") [Re.opt (Re.lit "s"), Re.lit "://", plusC isUrlCh],
    LinkType.generic, pct 50)]

/-! ## Confidence adjustment -/

/-- `strong_indicators` from `_adjust_otp_confidence`. -/
def strong_indicators : List String :=
  ["verification", "verify", "otp", "one-time", "passcode", "authentication",
   "two-factor", "2fa", "security code", "confirmation code"]

/-- `weak_indicators` from `_adjust_otp_confidence`. -/
def weak_indicators : List String := ["invoice", "order", "reference", "tracking"]

/-- `_adjust_otp_confidence(code, context, base_confidence)`: +0.10 for a
strong indicator in the lowered context (clamped at 1.0), ×0.7 for a weak
indicator, +0.05 for exactly 6 digits (clamped), ×0.6 for exactly 4 digits,
×0.5 when the code has at most two distinct digits. -/
def adjust_otp_confidence (code : String) (context : String) (base_confidence : ℚ) : ℚ :=
  let context_lower := lowerList context.data
  let c := base_confidence
  let c := if strong_indicators.any (fun ind => containsSub context_lower ind.data)
    then qmin 1 (qadd c (pct 10)) else c
  let c := if weak_indicators.any (fun ind => containsSub context_lower ind.data)
    then qmul c (pct 70) else c
  let c := if code.length = 6 then qmin 1 (qadd c (pct 5)) else c
  let c := if code.length = 4 then qmul c (pct 60) else c
  let c := if code.data.dedup.length ≤ 2 then qmul c (pct 50) else c
  c

/-- `action_words` from `_adjust_link_confidence`. -/
def action_words : List String :=
  ["click", "verify", "confirm", "activate", "complete", "continue",
   "get started", "sign in"]

/-- `generic_link_text` from `_adjust_link_confidence`. -/
def generic_link_text : List String := ["click here", "here", "link", "this link"]

/-- `_adjust_link_confidence(url, link_text, context, base_confidence,
link_type)`, clause for clause from the source. -/
def adjust_link_confidence (url link_text context : String) (base_confidence : ℚ)
    (link_type : LinkType) : ℚ :=
  let context_lower := lowerList context.data
  let url_lower := lowerList url.data
  let link_text_lower := if link_text = "" then [] else lowerList link_text.data
  let c := base_confidence
  let c := if action_words.any (fun w => containsSub context_lower w.data)
    then qmin 1 (qadd c (pct 10)) else c
  let c := if !link_text_lower.isEmpty
      && action_words.any (fun w => containsSub link_text_lower w.data)
    then qmin 1 (qadd c (pct 15)) else c
  let c := if !link_text_lower.isEmpty then
      if link_type = LinkType.verification
          && ["verify", "confirm", "activate"].any
              (fun w => containsSub link_text_lower (String.data w)) then
        qmin 1 (qadd c (pct 10))
      else if link_type = LinkType.reset_password
          && ["reset", "password", "forgot"].any
              (fun w => containsSub link_text_lower (String.data w)) then
        qmin 1 (qadd c (pct 10))
      else if link_type = LinkType.magic_link
          && ["sign in", "login", "access"].any
              (fun w => containsSub link_text_lower (String.data w)) then
        qmin 1 (qadd c (pct 10))
      else c
    else c
  let c := if !link_text_lower.isEmpty
      && generic_link_text.any (fun g => g.data = link_text_lower)
    then qmul c (pct 90) else c
  let c := if link_type ≠ LinkType.generic then
      if containsSub url_lower (linkTypeValue link_type).data
      then qmin 1 (qadd c (pct 5)) else c
    else c
  let c := if link_type = LinkType.generic then
      let has_action_context := action_words.any (fun w => containsSub context_lower w.data)
      let has_action_text := !link_text_lower.isEmpty
        && action_words.any (fun w => containsSub link_text_lower w.data)
      if !has_action_context && !has_action_text then qmul c (pct 50) else c
    else c
  let c := if startsWithStr url "https://" then qmin 1 (qadd c (pct 5)) else c
  c

/-! ## Extraction functions -/

/-- Python `str.isdigit()` (ASCII digits). -/
def pyIsDigit (s : String) : Bool := !s.data.isEmpty && s.data.all isDigitCh

/-- One iteration of the inner `for match in matches` loop of
`extract_otps_regex`: skip seen codes, compute the ±50-character stripped
context, adjust confidence, and keep the code only at confidence ≥ 0.5
(only then is it added to `seen_codes`). -/
def otpMatchStep (t : List Char) (base : ℚ) (st : List OTPCode × List String)
    (m : MatchInfo) : List OTPCode × List String :=
  let code := matchGroupText t m
  if st.2.contains code then st
  else
    let s := m.mstart - 50
    let e := min t.length (m.mend + 50)
    let context := (pyStrip (sliceChars t s e)).asString
    let confidence := adjust_otp_confidence code context base
    if pct 50 ≤ confidence then
      (st.1 ++ [⟨code, confidence, context, (m.mstart : Int), "regex"⟩],
       st.2 ++ [code])
    else st

/-- Python's stable `list.sort(key=confidence, reverse=True)`;
`insertionSort` with this relation is the stable descending sort. -/
def sortOtpsByConfDesc (l : List OTPCode) : List OTPCode :=
  List.insertionSort (fun a b => b.confidence ≤ a.confidence) l

/-- `extract_otps_regex(text)`: run each pattern in order over the text,
deduplicating by code value (first accepted match wins), then sort by
confidence descending. -/
def extract_otps_regex (text : String) : List OTPCode :=
  let t := text.data
  let res := otp_patterns.foldl
    (fun st pr => (finditer pr.1 t).foldl (otpMatchStep t pr.2) st) ([], [])
  sortOtpsByConfDesc res.1

/-- Trailing-punctuation cleanup `re.sub(r"[.,;!?)\]}>]+$", "", url)`. -/
def isTrailPunct (c : Char) : Bool :=
  c = '.' || c = ',' || c = ';' || c = '!' || c = '?' || c = ')' || c = ']'
    || c = '\x7d' || c = '>'

/-- Strip the trailing punctuation run from a URL. -/
def stripTrailingPunct (s : List Char) : List Char :=
  (s.reverse.dropWhile isTrailPunct).reverse

/-- The dynamically-built anchor-tag pattern of `_extract_link_text`:
`<a[^>]*href=["\']?{re.escape(url)}["\']?[^>]*>(.*?)</a>` with
IGNORECASE and DOTALL (so the lazy group crosses newlines). -/
def linkTextRe (url : String) : Re :=
  seqList (Re.lit "<a")
    [starC isNotGt, Re.lit "href=",
     Re.opt (cls1 (fun c => c = '"' || c = '\'')), Re.lit url,
     Re.opt (cls1 (fun c => c = '"' || c = '\'')), starC isNotGt, Re.lit ">",
     Re.grp (lazyStarC (fun _ => true)), Re.lit "</a>"]

/-- The two grouped fallback patterns scanned over the preceding text in
`_extract_link_text`, in source order. -/
def link_text_patterns : List Re :=
  [Re.grp (altList (Re.lit "verify")
     [Re.lit "confirm", Re.lit "click here", Re.lit "activate", Re.lit "reset"]),
   Re.grp (altList (Re.lit "complete") [Re.lit "continue", Re.lit "get started"])]

/-- `_extract_link_text(text, position, url)`: prefer the inner text of an
enclosing `<a href=url>` tag (stripped); otherwise scan the 30 characters
before the match for an action word; otherwise `""`. -/
def extract_link_text (t : List Char) (position : Nat) (url : String) : String :=
  match reSearch (linkTextRe url) t with
  | some m =>
      (pyStrip (match m.mgroup with
        | some (a, b) => sliceChars t a b
        | none => [])).asString
  | none =>
      let nearby := pyStrip (sliceChars t (position - 30) position)
      match link_text_patterns.findSome? (fun p => reSearch p nearby) with
      | some m =>
          (match m.mgroup with
            | some (a, b) => sliceChars nearby a b
            | none => []).asString
      | none => ""

/-- One iteration of the inner loop of `extract_links_regex`: clean the URL,
skip seen URLs, compute the ±100-character stripped context and the anchor
text, adjust confidence, and keep the link only at confidence ≥ 0.5. -/
def linkMatchStep (t : List Char) (lt : LinkType) (base : ℚ)
    (st : List ConfirmationLink × List String) (m : MatchInfo) :
    List ConfirmationLink × List String :=
  let url := (stripTrailingPunct (sliceChars t m.mstart m.mend)).asString
  if st.2.contains url then st
  else
    let s := m.mstart - 100
    let e := min t.length (m.mend + 100)
    let context := (pyStrip (sliceChars t s e)).asString
    let link_text := extract_link_text t m.mstart url
    let confidence := adjust_link_confidence url link_text context base lt
    if pct 50 ≤ confidence then
      (st.1 ++ [⟨url, lt, confidence, link_text, context, "regex"⟩],
       st.2 ++ [url])
    else st

/-- Stable descending sort of links by confidence. -/
def sortLinksByConfDesc (l : List ConfirmationLink) : List ConfirmationLink :=
  List.insertionSort (fun a b => b.confidence ≤ a.confidence) l

/-- `extract_links_regex(text)`. -/
def extract_links_regex (text : String) : List ConfirmationLink :=
  let t := text.data
  let res := link_patterns.foldl
    (fun st pr => (finditer pr.1 t).foldl (linkMatchStep t pr.2.1 pr.2.2) st)
    ([], [])
  sortLinksByConfDesc res.1

/-! ## Merge (`_merge_otps` / `_merge_links`)

A Python dict is an insertion-ordered association list: assigning to an
existing key replaces the value in place, assigning a new key appends. -/

/-- `seen[k] = v` on an insertion-ordered dict: replace the value in place
when the key is present (dict keys are unique), else append the new pair. -/
def dictAssign {α : Type} : List (String × α) → String → α → List (String × α)
  | [], k, v => [(k, v)]
  | p :: rest, k, v =>
      if p.1 = k then (k, v) :: rest else p :: dictAssign rest k v

/-- `seen[k]` lookup. -/
def dictFind {α : Type} (d : List (String × α)) (k : String) : Option α :=
  match d.find? (fun p => p.1 = k) with
  | some p => some p.2
  | none => none

/-- Phase 1 of the merge: `for x in first: seen[key(x)] = x`. -/
def mergeAssignPhase {α : Type} (key : α → String) (d : List (String × α))
    (xs : List α) : List (String × α) :=
  xs.foldl (fun d x => dictAssign d (key x) x) d

/-- One phase-2 step: `if key(x) not in seen or conf(x) > conf(seen[key(x)]):
seen[key(x)] = x`. -/
def mergeStep2 {α : Type} (key : α → String) (conf : α → ℚ)
    (d : List (String × α)) (x : α) : List (String × α) :=
  match dictFind d (key x) with
  | none => dictAssign d (key x) x
  | some e => if conf e < conf x then dictAssign d (key x) x else d

/-- The merge body shared by `_merge_otps` and `_merge_links`: insert all
first-phase (regex) results, then a second-phase (LLM) result only when its
key is absent or its confidence is strictly greater; finally list the dict's
values sorted by confidence descending (stably). -/
def mergeByKey {α : Type} (key : α → String) (conf : α → ℚ)
    (first second : List α) : List α :=
  let d := mergeAssignPhase key [] first
  let d := second.foldl (mergeStep2 key conf) d
  List.insertionSort (fun a b => conf b ≤ conf a) (d.map Prod.snd)

/-- `_merge_otps(regex_otps, llm_otps)` (keyed by code value). -/
def _merge_otps (regex_otps llm_otps : List OTPCode) : List OTPCode :=
  mergeByKey (fun o => o.code) (fun o => o.confidence) regex_otps llm_otps

/-- `_merge_links(regex_links, llm_links)` (keyed by URL). -/
def _merge_links (regex_links llm_links : List ConfirmationLink) :
    List ConfirmationLink :=
  mergeByKey (fun l => l.url) (fun l => l.confidence) regex_links llm_links

/-! ## Fallback decision, intent, summary, parse -/

/-- `max(otp.confidence for otp in regex_otps)` over a non-empty list
(`0` for the empty list, which the callers never reach). -/
def maxConfOtp : List OTPCode → ℚ
  | [] => 0
  | o :: rest => rest.foldl (fun m x => qmax m x.confidence) o.confidence

/-- The `needs_llm` decision of `parse`, mirroring the source expression
`use_llm_fallback and (len(regex_otps) == 0 or (regex_otps and
max(...) < 0.7) or len(regex_links) == 0)`. -/
def needsLlm (use_llm_fallback : Bool) (regex_otps : List OTPCode)
    (regex_links : List ConfirmationLink) : Bool :=
  use_llm_fallback &&
    (decide (regex_otps.length = 0) ||
     (!regex_otps.isEmpty && decide (maxConfOtp regex_otps < pct 70)) ||
     decide (regex_links.length = 0))

/-- The trigger condition as the spec words it: fallback is permitted and
(no codes were found, or the best code confidence is below 0.7, or no links
were found).  Used only to compare against the source's `needsLlm`. -/
def specFallbackTrigger (allow : Bool) (otps : List OTPCode)
    (links : List ConfirmationLink) : Bool :=
  allow && (otps.isEmpty || decide (maxConfOtp otps < pct 70) || links.isEmpty)

/-- `_determine_intent(text, otps, links)`. -/
def determine_intent (text : String) (otps : List OTPCode)
    (links : List ConfirmationLink) : String :=
  let text_lower := lowerList text.data
  if !otps.isEmpty then
    if containsSub text_lower (String.data "login")
        || containsSub text_lower (String.data "sign in") then "authentication"
    else if containsSub text_lower (String.data "verify")
        || containsSub text_lower (String.data "confirm") then "verification"
    else if containsSub text_lower (String.data "reset")
        || containsSub text_lower (String.data "password") then "password_reset"
    else "authentication"
  else
    match links.head? with
    | some primary =>
        if primary.link_type = LinkType.verification then "verification"
        else if primary.link_type = LinkType.reset_password then "password_reset"
        else if primary.link_type = LinkType.confirmation then "confirmation"
        else if primary.link_type = LinkType.magic_link then "magic_link_auth"
        else "unknown"
    | none => "unknown"

/-- Python `str.replace("_", " ")`. -/
def underscoresToSpaces (s : String) : String :=
  String.mk (s.data.map (fun c => if c = '_' then ' ' else c))

/-- `_generate_summary(otps, links, intent)`. -/
def generate_summary (otps : List OTPCode) (links : List ConfirmationLink)
    (intent : String) : String :=
  let parts : List String := []
  let parts := if !otps.isEmpty then
      parts ++ ["Found " ++ toString otps.length ++ " OTP code(s): "
        ++ String.intercalate ", " ((otps.take 3).map (fun o => o.code))]
    else parts
  let action_links := links.filter (fun l => l.link_type ≠ LinkType.unsubscribe)
  let parts := if !links.isEmpty && !action_links.isEmpty then
      parts ++ ["Found " ++ toString action_links.length ++ " action link(s)"]
    else parts
  let parts := if intent ≠ "" && intent ≠ "unknown" then
      parts ++ ["Intent: " ++ underscoresToSpaces intent]
    else parts
  if parts.isEmpty then "No actionable items found"
  else String.intercalate ". " parts

/-- `<[^>]+>` used to strip HTML tags in `parse`. -/
def tagRe : Re := Re.seq (Re.lit "<") (Re.seq (plusC isNotGt) (Re.lit ">"))

/-- Replace each match span by one space (`re.sub(pattern, " ", html)`). -/
def reSubSpaceAux (t : List Char) : List MatchInfo → Nat → List Char
  | [], cursor => t.drop cursor
  | m :: rest, cursor => sliceChars t cursor m.mstart ++ ' ' :: reSubSpaceAux t rest m.mend

/-- `re.sub(r"<[^>]+>", " ", html)`. -/
def stripTags (html : String) : String :=
  (reSubSpaceAux html.data (finditer tagRe html.data) 0).asString

/-- Metadata dict of a `ParseResult`. -/
structure ParseMeta where
  regex_otp_count : Nat
  regex_link_count : Nat
  llm_otp_count : Nat
  llm_link_count : Nat
  used_llm : Bool
deriving DecidableEq, Repr

/-- `ParseResult` dataclass. -/
structure ParseResult where
  otp_codes : List OTPCode
  links : List ConfirmationLink
  sender_intent : String
  requires_action : Bool
  summary : String
  metadata : ParseMeta
deriving DecidableEq, Repr

/-- `EmailParser.parse(text, html, use_llm_fallback)`.  The two awaited LLM
extractions are network effects; their return values are passed in as
`llmOtpResult`/`llmLinkResult` (the source consults them only when
`needs_llm` holds, otherwise both stay `[]`).  `combinedText` is the
`combined_text` local: the text, plus the tag-stripped HTML when a non-empty
`html` is given (Python truthiness: `if html:`). -/
def combinedText (text : String) (html : Option String) : String :=
  match html with
  | some h => if h = "" then text else text ++ "\n\n" ++ stripTags h
  | none => text

/-- `EmailParser.parse(text, html, use_llm_fallback)` body, continued. -/
def parse (text : String) (html : Option String) (use_llm_fallback : Bool)
    (llmOtpResult : List OTPCode) (llmLinkResult : List ConfirmationLink) :
    ParseResult :=
  let combined_text := combinedText text html
  let regex_otps := extract_otps_regex combined_text
  let regex_links := extract_links_regex combined_text
  let needs_llm := needsLlm use_llm_fallback regex_otps regex_links
  let llm_otps := if needs_llm then llmOtpResult else []
  let llm_links := if needs_llm then llmLinkResult else []
  let all_otps := _merge_otps regex_otps llm_otps
  let all_links := _merge_links regex_links llm_links
  let sender_intent := determine_intent combined_text all_otps all_links
  let requires_action := !all_otps.isEmpty
    || all_links.any (fun l => l.link_type ≠ LinkType.unsubscribe)
  let summary := generate_summary all_otps all_links sender_intent
  ⟨all_otps, all_links, sender_intent, requires_action, summary,
   ⟨regex_otps.length, regex_links.length, llm_otps.length, llm_links.length,
    needs_llm⟩⟩

/-! ## LLM fallback (`extract_otps_llm` / `extract_links_llm`)

The HTTP POST to the completion service is an external effect, driven by an
`LlmOutcome`: a transport error/timeout (which the `except` clauses turn
into `[]`), or a response with a status code and parsed JSON body (`none` =
`response.json()` raised).  `json.loads` applied to the model's text is the
`jsonLoads` parameter (`none` = `json.JSONDecodeError`).  The API key guard
`if not self.anthropic_api_key: return []` is the `apiKey = ""` test. -/

/-- Outcome of the `httpx` POST in the LLM fallback. -/
inductive LlmOutcome where
  | netError : LlmOutcome
  | resp : Nat → Option JValue → LlmOutcome

/-- `result["content"][0]["text"]` — `none` models the KeyError /
IndexError / TypeError that the blanket `except` turns into `[]`. -/
def firstContentText : JValue → Option String
  | .obj fields =>
      match (fields.filter (fun p => p.1 = "content")).getLast? with
      | some (_, .arr (c0 :: _)) =>
          match c0 with
          | .obj cf =>
              match (cf.filter (fun p => p.1 = "text")).getLast? with
              | some (_, .str s) => some s
              | _ => none
          | _ => none
      | _ => none
  | _ => none

/-- The markdown code-fence stripping applied to the model's reply. -/
def stripCodeFences (content : String) : String :=
  let c := (pyStrip content.data).asString
  let c := if startsWithStr c "```json" then ((String.data c).drop 7).asString else c
  let c := if startsWithStr c "```" then ((String.data c).drop 3).asString else c
  let c := if endsWithStr c "```" then ((String.data c).take (c.length - 3)).asString else c
  (pyStrip c.data).asString

/-- The per-item validation loop of `extract_otps_llm`: skip non-dicts and
codes that are not 4–8 digit strings; `float(item.get("confidence", 0.8))`
raises on a non-numeric value (`none` aborts the whole call to `[]`);
clamp confidence to `[0, 1]`; truncate context to 100 characters. -/
def validateOtpItems : List JValue → Option (List OTPCode)
  | [] => some []
  | item :: rest =>
      match item with
      | .obj fields =>
          let code := pyStr (jget fields "code" (JValue.str ""))
          if !pyIsDigit code || code.length < 4 || code.length > 8 then
            validateOtpItems rest
          else
            match pyFloat (jget fields "confidence" (JValue.num (pct 80))) with
            | none => none
            | some c0 =>
                let confidence := qmax 0 (qmin 1 c0)
                let context := ((pyStr (jget fields "context" (JValue.str ""))).data.take 100).asString
                match validateOtpItems rest with
                | none => none
                | some tail =>
                    some (⟨code, confidence, context, -1, "llm"⟩ :: tail)
      | _ => validateOtpItems rest

/-- `extract_otps_llm`: every failure mode (no API key, transport error,
non-200 status, unreadable body, missing content text, reply not starting
with `[`, JSON parse error, parsed value not a list, or an exception inside
validation) returns `[]`; otherwise at most `MAX_CODES = 10` validated
codes. -/
def extract_otps_llm (apiKey : String) (jsonLoads : String → Option JValue)
    (outcome : LlmOutcome) : List OTPCode :=
  if apiKey = "" then []
  else
    match outcome with
    | .netError => []
    | .resp status body =>
        if status ≠ 200 then []
        else
          match body with
          | none => []
          | some j =>
              match firstContentText j with
              | none => []
              | some rawContent =>
                  let content := stripCodeFences rawContent
                  if !startsWithStr content "[" then []
                  else
                    match jsonLoads content with
                    | none => []
                    | some (.arr items) => (validateOtpItems (items.take 10)).getD []
                    | some _ => []

/-- `LinkType(link_type_str)` with the `except ValueError: GENERIC` handler;
a non-string value also raises and falls back to GENERIC. -/
def parseLinkTypeJ : JValue → LinkType
  | .str s => parseLinkType s
  | _ => .generic

/-- The per-item validation loop of `extract_links_llm`: skip non-dicts,
URLs not starting with `http://`/`https://`, and URLs longer than 2000
characters; unknown link kinds fall back to `generic`; clamp confidence;
truncate text and context to 200 characters. -/
def validateLinkItems : List JValue → Option (List ConfirmationLink)
  | [] => some []
  | item :: rest =>
      match item with
      | .obj fields =>
          let url := pyStr (jget fields "url" (JValue.str ""))
          if !(startsWithStr url "http://" || startsWithStr url "https://") then
            validateLinkItems rest
          else if url.length > 2000 then
            validateLinkItems rest
          else
            let link_type := parseLinkTypeJ (jget fields "link_type" (JValue.str "generic"))
            match pyFloat (jget fields "confidence" (JValue.num (pct 80))) with
            | none => none
            | some c0 =>
                let confidence := qmax 0 (qmin 1 c0)
                let ltext := ((pyStr (jget fields "text" (JValue.str ""))).data.take 200).asString
                let context := ((pyStr (jget fields "context" (JValue.str ""))).data.take 200).asString
                match validateLinkItems rest with
                | none => none
                | some tail =>
                    some (⟨url, link_type, confidence, ltext, context, "llm"⟩ :: tail)
      | _ => validateLinkItems rest

/-- `extract_links_llm`: same failure-mode structure as `extract_otps_llm`,
with `MAX_LINKS = 20`. -/
def extract_links_llm (apiKey : String) (jsonLoads : String → Option JValue)
    (outcome : LlmOutcome) : List ConfirmationLink :=
  if apiKey = "" then []
  else
    match outcome with
    | .netError => []
    | .resp status body =>
        if status ≠ 200 then []
        else
          match body with
          | none => []
          | some j =>
              match firstContentText j with
              | none => []
              | some rawContent =>
                  let content := stripCodeFences rawContent
                  if !startsWithStr content "[" then []
                  else
                    match jsonLoads content with
                    | none => []
                    | some (.arr items) => (validateLinkItems (items.take 20)).getD []
                    | some _ => []

/-- The concrete input of spec §8: `"Your verification code is: 123456"`. -/
def demoText : String := "Your verification code is: 123456"

/-! # Theorems -/

/-! ## Bridging lemmas for the computable rational operations -/

/-- `qadd` agrees with rational addition. -/
theorem qadd_eq (a b : ℚ) : qadd a b = a + b := (Rat.add_def' a b).symm

/-- `qmul` agrees with rational multiplication. -/
theorem qmul_eq (a b : ℚ) : qmul a b = a * b := by
  rw [Rat.mul_def, Rat.normalize_eq_mkRat]; rfl

/-- `qmin` agrees with `min`. -/
theorem qmin_eq (a b : ℚ) : qmin a b = min a b := (min_def a b).symm

/-- `qmax` agrees with `max`. -/
theorem qmax_eq (a b : ℚ) : qmax a b = max a b := (max_def a b).symm

/-! ## C1: deliveries are enqueued only after a successful commit -/

/-- In a trace beginning `addEvent :: commit :: _`, any split exposing an
`enqueueDelivery` must place `commit` in the prefix. -/
theorem commit_mem_of_split (tail pre post : List EvAction) (u s : String)
    (h : EvAction.addEvent :: EvAction.commit :: tail
          = pre ++ EvAction.enqueueDelivery u s :: post) :
    EvAction.commit ∈ pre := by
  cases pre with
  | nil => simp at h
  | cons x pre' =>
    cases pre' with
    | nil => simp at h
    | cons y pre'' =>
      have hy : y = EvAction.commit := by
        simp only [List.cons_append, List.cons.injEq] at h
        exact h.2.1.symm
      rw [hy]
      exact List.mem_cons_of_mem _ (List.mem_cons_self _ _)

/-- A trace with no enqueue action admits no split at an enqueue action. -/
theorem commit_mem_of_no_enqueue (tr pre post : List EvAction) (u s : String)
    (hno : ∀ a ∈ tr, a.isEnqueue = false)
    (h : tr = pre ++ EvAction.enqueueDelivery u s :: post) :
    EvAction.commit ∈ pre := by
  exfalso
  have hm : EvAction.enqueueDelivery u s ∈ tr := h ▸ (by simp)
  have := hno _ hm
  simp [EvAction.isEnqueue] at this

/-- C1.  For both the async and the sync variant of
`store_event_and_queue_webhooks`: if any step up to and including the commit
fails, the emitted trace contains no `enqueueDelivery`; and in every trace,
every `enqueueDelivery` is preceded by a successful `commit`. -/
theorem store_event_enqueue_only_after_commit
    (addOk commitOk refreshOk : Bool) (hooksRes : Option (List WebhookRow)) :
    ((addOk = false ∨ commitOk = false) →
      ∀ a ∈ (store_event_and_queue_webhooks addOk commitOk hooksRes).1,
        a.isEnqueue = false) ∧
    (∀ pre post u s,
      (store_event_and_queue_webhooks addOk commitOk hooksRes).1 =
        pre ++ EvAction.enqueueDelivery u s :: post →
      EvAction.commit ∈ pre) ∧
    ((addOk = false ∨ commitOk = false) →
      ∀ a ∈ (store_event_and_queue_webhooks_sync addOk commitOk refreshOk hooksRes).1,
        a.isEnqueue = false) ∧
    (∀ pre post u s,
      (store_event_and_queue_webhooks_sync addOk commitOk refreshOk hooksRes).1 =
        pre ++ EvAction.enqueueDelivery u s :: post →
      EvAction.commit ∈ pre) := by
  cases addOk with
  | false =>
    refine ⟨?_, ?_, ?_, ?_⟩
    · intro _ a ha
      simp [store_event_and_queue_webhooks] at ha
      rcases ha with rfl | rfl <;> rfl
    · intro pre post u s h
      refine commit_mem_of_no_enqueue _ pre post u s ?_ h
      intro a ha
      simp [store_event_and_queue_webhooks] at ha
      rcases ha with rfl | rfl <;> rfl
    · intro _ a ha
      simp [store_event_and_queue_webhooks_sync] at ha
      rcases ha with rfl <;> rfl
    · intro pre post u s h
      refine commit_mem_of_no_enqueue _ pre post u s ?_ h
      intro a ha
      simp [store_event_and_queue_webhooks_sync] at ha
      rcases ha with rfl <;> rfl
  | true =>
    cases commitOk with
    | false =>
      refine ⟨?_, ?_, ?_, ?_⟩
      · intro _ a ha
        simp [store_event_and_queue_webhooks] at ha
        rcases ha with rfl | rfl | rfl <;> rfl
      · intro pre post u s h
        refine commit_mem_of_no_enqueue _ pre post u s ?_ h
        intro a ha
        simp [store_event_and_queue_webhooks] at ha
        rcases ha with rfl | rfl | rfl <;> rfl
      · intro _ a ha
        simp [store_event_and_queue_webhooks_sync] at ha
        rcases ha with rfl | rfl <;> rfl
      · intro pre post u s h
        refine commit_mem_of_no_enqueue _ pre post u s ?_ h
        intro a ha
        simp [store_event_and_queue_webhooks_sync] at ha
        rcases ha with rfl | rfl <;> rfl
    | true =>
      refine ⟨?_, ?_, ?_, ?_⟩
      · rintro (h | h) <;> exact absurd h (by simp)
      · intro pre post u s h
        rcases hooksRes with _ | hooks
        · exact commit_mem_of_split _ pre post u s (by simpa [store_event_and_queue_webhooks] using h)
        · exact commit_mem_of_split _ pre post u s (by simpa [store_event_and_queue_webhooks] using h)
      · rintro (h | h) <;> exact absurd h (by simp)
      · intro pre post u s h
        cases refreshOk with
        | false =>
          refine commit_mem_of_no_enqueue _ pre post u s ?_ h
          intro a ha
          simp [store_event_and_queue_webhooks_sync] at ha
          rcases ha with rfl | rfl | rfl <;> rfl
        | true =>
          rcases hooksRes with _ | hooks
          · exact commit_mem_of_split _ pre post u s (by simpa [store_event_and_queue_webhooks_sync] using h)
          · exact commit_mem_of_split _ pre post u s (by simpa [store_event_and_queue_webhooks_sync] using h)

/-- Witness for C1 at concrete inputs: a successful run over one active
webhook splits at its enqueue action with `commit` in the prefix. -/
theorem store_event_enqueue_only_after_commit_witness :
    EvAction.commit ∈ [EvAction.addEvent, EvAction.commit, EvAction.queryHooks] :=
  (store_event_enqueue_only_after_commit true true true
      (some [⟨"https://example.com/hook", some "tok"⟩])).2.1
    [EvAction.addEvent, EvAction.commit, EvAction.queryHooks]
    [EvAction.closeSession] "https://example.com/hook" "tok" rfl

/-! ## C2 / C7: delivery retry bounds and backoff schedule -/

/-- Attempt-count bound: starting from retry counter `r ≤ 8`, a delivery run
issues at most `9 - r` HTTP attempts. -/
theorem deliver_run_attempts_add_le (os : List Outcome) :
    ∀ r, r ≤ 8 → (deliver_webhook_run r os).attempts + r ≤ 9 := by
  induction os with
  | nil => intro r hr; simp [deliver_webhook_run]; omega
  | cons o rest ih =>
    intro r hr
    cases o with
    | ok2xx => simp [deliver_webhook_run, deliver_webhook_step]; omega
    | httpStatusErr =>
      simp only [deliver_webhook_run, deliver_webhook_step, webhookMaxRetries]
      by_cases h : r + 1 > 8
      · simp [h]; omega
      · simp [h]
        have := ih (r + 1) (by omega)
        omega
    | requestErr =>
      simp only [deliver_webhook_run, deliver_webhook_step, webhookMaxRetries]
      by_cases h : r + 1 > 8
      · simp [h]; omega
      · simp [h]
        have := ih (r + 1) (by omega)
        omega
    | otherErr =>
      simp only [deliver_webhook_run, deliver_webhook_step, webhookMaxRetries]
      by_cases h : r + 1 > 8
      · simp [h]; omega
      · simp [h]
        have := ih (r + 1) (by omega)
        omega

/-- A run of all-failing outcomes that reaches the retry cap ends Exhausted,
with one attempt per outcome consumed. -/
theorem deliver_run_exhausts (os : List Outcome) :
    ∀ r, (∀ o ∈ os, o ≠ Outcome.ok2xx) → r + os.length = 9 → r ≤ 8 →
      (deliver_webhook_run r os).attempts = 9 - r ∧
      (deliver_webhook_run r os).final = DeliveryFinal.exhausted := by
  induction os with
  | nil => intro r _ hlen hr; simp at hlen; omega
  | cons o rest ih =>
    intro r hfail hlen hr
    have ho : o ≠ Outcome.ok2xx := hfail o (List.mem_cons_self _ _)
    have hrest : ∀ o ∈ rest, o ≠ Outcome.ok2xx :=
      fun o ho' => hfail o (List.mem_cons_of_mem _ ho')
    cases o with
    | ok2xx => exact absurd rfl ho
    | httpStatusErr =>
      simp only [deliver_webhook_run, deliver_webhook_step, webhookMaxRetries]
      by_cases h : r + 1 > 8
      · simp [h]; omega
      · simp [h]
        obtain ⟨ha, hf⟩ := ih (r + 1) hrest (by simp at hlen; omega) (by omega)
        exact ⟨by omega, hf⟩
    | requestErr =>
      simp only [deliver_webhook_run, deliver_webhook_step, webhookMaxRetries]
      by_cases h : r + 1 > 8
      · simp [h]; omega
      · simp [h]
        obtain ⟨ha, hf⟩ := ih (r + 1) hrest (by simp at hlen; omega) (by omega)
        exact ⟨by omega, hf⟩
    | otherErr =>
      simp only [deliver_webhook_run, deliver_webhook_step, webhookMaxRetries]
      by_cases h : r + 1 > 8
      · simp [h]; omega
      · simp [h]
        obtain ⟨ha, hf⟩ := ih (r + 1) hrest (by simp at hlen; omega) (by omega)
        exact ⟨by omega, hf⟩

/-- Once a run has reached a terminal state, appending further outcomes
changes nothing: no further attempts are issued. -/
theorem deliver_run_stops_at_terminal (os : List Outcome) :
    ∀ r (rest : List Outcome),
      (deliver_webhook_run r os).final ≠ DeliveryFinal.inFlight →
      deliver_webhook_run r (os ++ rest) = deliver_webhook_run r os := by
  induction os with
  | nil => intro r rest h; exact absurd rfl h
  | cons o rest' ih =>
    intro r rest h
    rw [List.cons_append]
    cases hstep : deliver_webhook_step r o with
    | delivered => simp [deliver_webhook_run, hstep]
    | exhausted => simp [deliver_webhook_run, hstep]
    | retrySched c =>
      have h' : (deliver_webhook_run (r + 1) rest').final ≠ DeliveryFinal.inFlight := by
        simpa [deliver_webhook_run, hstep] using h
      simp [deliver_webhook_run, hstep, ih (r + 1) rest h']

/-- C2, counterexample to the claim as stated: nine consecutive failing
attempts are issued before the task exhausts (Celery's `max_retries=8` caps
retries, so the initial attempt plus 8 retries = 9 HTTP attempts), and after
8 consecutive failures the task is still in flight (a further attempt is
scheduled), contradicting "no task ever performs more than 8 delivery
attempts". -/
theorem deliver_webhook_nine_attempts_counterexample :
    (deliver_webhook_run 0 (List.replicate 9 Outcome.httpStatusErr)).attempts = 9 ∧
    (deliver_webhook_run 0 (List.replicate 8 Outcome.httpStatusErr)).final
      = DeliveryFinal.inFlight ∧
    ¬ (deliver_webhook_run 0 (List.replicate 9 Outcome.httpStatusErr)).attempts ≤ 8 :=
  ⟨rfl, rfl, by decide⟩

/-- C2 (amended).  After 9 consecutive failed delivery attempts (the initial
attempt plus Celery's `max_retries = 8` retries) the worker reaches the
terminal Exhausted state and issues no further HTTP attempts; no task ever
performs more than 9 delivery attempts. -/
theorem deliver_webhook_exhausts_after_nine (os rest : List Outcome)
    (hlen : os.length = 9) (hfail : ∀ o ∈ os, o ≠ Outcome.ok2xx) :
    (deliver_webhook_run 0 os).final = DeliveryFinal.exhausted ∧
    deliver_webhook_run 0 (os ++ rest) = deliver_webhook_run 0 os ∧
    ∀ os2 : List Outcome, (deliver_webhook_run 0 os2).attempts ≤ 9 := by
  have hex := deliver_run_exhausts os 0 hfail (by omega) (by omega)
  refine ⟨hex.2, ?_, ?_⟩
  · exact deliver_run_stops_at_terminal os 0 rest (by rw [hex.2]; simp)
  · intro os2
    have := deliver_run_attempts_add_le os2 0 (by omega)
    omega

/-- Witness for the amended C2 at a concrete all-failing stream. -/
theorem deliver_webhook_exhausts_after_nine_witness :
    (deliver_webhook_run 0 (List.replicate 9 Outcome.httpStatusErr)).final
      = DeliveryFinal.exhausted :=
  (deliver_webhook_exhausts_after_nine (List.replicate 9 Outcome.httpStatusErr) []
    (by decide) (by decide)).1

/-- C7.  Three consecutive failed attempts (of any failure kind) followed by
a 2xx response: exactly three RetryScheduled transitions with countdowns
1s, 2s, 4s (`2^attemptNumber` after the n-th failure, n = 0, 1, 2), then the
terminal Delivered state on the fourth attempt. -/
theorem deliver_webhook_backoff_1_2_4 (o1 o2 o3 : Outcome)
    (h1 : o1 ≠ Outcome.ok2xx) (h2 : o2 ≠ Outcome.ok2xx) (h3 : o3 ≠ Outcome.ok2xx) :
    deliver_webhook_run 0 [o1, o2, o3, Outcome.ok2xx] =
      ⟨4, [1, 2, 4], DeliveryFinal.delivered⟩ := by
  cases o1 <;> cases o2 <;> cases o3 <;>
    first
      | exact absurd rfl h1
      | exact absurd rfl h2
      | exact absurd rfl h3
      | rfl

/-- Witness for C7 at concrete failure outcomes. -/
theorem deliver_webhook_backoff_1_2_4_witness :
    deliver_webhook_run 0
        [Outcome.httpStatusErr, Outcome.requestErr, Outcome.otherErr, Outcome.ok2xx] =
      ⟨4, [1, 2, 4], DeliveryFinal.delivered⟩ :=
  deliver_webhook_backoff_1_2_4 Outcome.httpStatusErr Outcome.requestErr Outcome.otherErr
    (by decide) (by decide) (by decide)

/-! ## C5: empty secret signs nothing and verifies nothing -/

/-- C5.  With an empty secret, `sign_webhook_payload` returns the empty
string for every payload, and `verify_webhook` returns `False` for every
payload and signature: an unsigned message can never verify as signed. -/
theorem sign_verify_empty_secret (hmacHex : String → String → String)
    (jsonLoads : String → Option (List (String × JValue)))
    (payload : List (String × JValue)) (raw signature : String) :
    sign_webhook_payload hmacHex payload "" = "" ∧
    verify_webhook hmacHex jsonLoads raw signature "" = some false := by
  constructor
  · simp [sign_webhook_payload]
  · simp [verify_webhook]

/-! ## C6: the signature is invariant under payload key insertion order -/

/-- `jdumpsPairs` is a map over the entries. -/
theorem jdumpsPairs_eq_map (l : List (String × JValue)) :
    jdumpsPairs l = l.map (fun p => (p.1, jdumps p.2)) := by
  induction l with
  | nil => rfl
  | cons p rest ih => simp [jdumpsPairs, ih]

/-- Two permuted entry lists with duplicate-free keys sort identically by
key: the canonical (sorted-key) form is insertion-order independent. -/
theorem sortPairsByKey_perm_eq (l1 l2 : List (String × String))
    (hp : List.Perm l1 l2) (hnd : (l1.map Prod.fst).Nodup) :
    sortPairsByKey l1 = sortPairsByKey l2 := by
  haveI : IsTotal (String × String) (fun a b => a.1 ≤ b.1) :=
    ⟨fun a b => le_total a.1 b.1⟩
  haveI : IsTrans (String × String) (fun a b => a.1 ≤ b.1) :=
    ⟨fun _ _ _ h1 h2 => le_trans h1 h2⟩
  haveI : IsAntisymm (String × String) (fun a b => a.1 < b.1) :=
    ⟨fun _ _ hab hba => absurd hab (lt_asymm hba)⟩
  have hne1 : List.Pairwise (fun a b : String × String => a.1 ≠ b.1) l1 := by
    have := hnd
    unfold List.Nodup at this
    rw [List.pairwise_map] at this
    exact this
  have hsymm : Symmetric (fun a b : String × String => a.1 ≠ b.1) :=
    fun _ _ hab => Ne.symm hab
  have hperm1 : List.Perm (sortPairsByKey l1) l1 := List.perm_insertionSort _ l1
  have hperm2 : List.Perm (sortPairsByKey l2) l2 := List.perm_insertionSort _ l2
  have hptot : List.Perm (sortPairsByKey l1) (sortPairsByKey l2) :=
    hperm1.trans (hp.trans hperm2.symm)
  have hneS1 : List.Pairwise (fun a b : String × String => a.1 ≠ b.1) (sortPairsByKey l1) :=
    (List.Perm.pairwise_iff (fun hab => hsymm hab) hperm1).mpr hne1
  have hneS2 : List.Pairwise (fun a b : String × String => a.1 ≠ b.1) (sortPairsByKey l2) :=
    (List.Perm.pairwise_iff (fun hab => hsymm hab) (hptot.symm.trans hperm1)).mpr hne1
  have hle1 : List.Pairwise (fun a b : String × String => a.1 ≤ b.1) (sortPairsByKey l1) :=
    List.sorted_insertionSort _ l1
  have hle2 : List.Pairwise (fun a b : String × String => a.1 ≤ b.1) (sortPairsByKey l2) :=
    List.sorted_insertionSort _ l2
  have hlt1 : List.Pairwise (fun a b : String × String => a.1 < b.1) (sortPairsByKey l1) :=
    (hle1.and hneS1).imp (fun h => lt_of_le_of_ne h.1 h.2)
  have hlt2 : List.Pairwise (fun a b : String × String => a.1 < b.1) (sortPairsByKey l2) :=
    (hle2.and hneS2).imp (fun h => lt_of_le_of_ne h.1 h.2)
  exact List.eq_of_perm_of_sorted hptot hlt1 hlt2

/-- C6.  The webhook signature is a pure function of the payload's key-value
mapping and the secret: permuting the insertion order of payload entries
(keys being unique, as in any Python dict) leaves the canonical sorted-key
serialization, hence the signature, unchanged — for every HMAC primitive. -/
theorem sign_webhook_key_order_invariant (hmacHex : String → String → String)
    (p1 p2 : List (String × JValue)) (secret : String)
    (hp : List.Perm p1 p2) (hnd : (p1.map Prod.fst).Nodup) :
    sign_webhook_payload hmacHex p1 secret = sign_webhook_payload hmacHex p2 secret := by
  unfold sign_webhook_payload
  by_cases hs : secret = ""
  · simp [hs]
  · simp only [hs, if_neg hs]
    have hkey : sortPairsByKey (jdumpsPairs p1) = sortPairsByKey (jdumpsPairs p2) := by
      apply sortPairsByKey_perm_eq
      · rw [jdumpsPairs_eq_map, jdumpsPairs_eq_map]
        exact hp.map _
      · rw [jdumpsPairs_eq_map]
        have : (List.map (fun p : String × JValue => (p.1, jdumps p.2)) p1).map Prod.fst
            = p1.map Prod.fst := by
          rw [List.map_map]; rfl
        rw [this]
        exact hnd
    have : jdumps (JValue.obj p1) = jdumps (JValue.obj p2) := by
      show "\x7b" ++ _ ++ "\x7d" = "\x7b" ++ _ ++ "\x7d"
      rw [hkey]
    rw [this]

/-- Witness for C6: two concrete two-key payloads in swapped insertion order
sign identically (with a concrete stand-in HMAC function). -/
theorem sign_webhook_key_order_invariant_witness :
    sign_webhook_payload (fun s m => s ++ "|" ++ m)
        [("b", JValue.num 1), ("a", JValue.str "x")] "sec" =
      sign_webhook_payload (fun s m => s ++ "|" ++ m)
        [("a", JValue.str "x"), ("b", JValue.num 1)] "sec" :=
  sign_webhook_key_order_invariant (fun s m => s ++ "|" ++ m)
    [("b", JValue.num 1), ("a", JValue.str "x")]
    [("a", JValue.str "x"), ("b", JValue.num 1)] "sec"
    (List.Perm.swap ("a", JValue.str "x") ("b", JValue.num 1) [])
    (by decide)

/-! ## C3: the fallback trigger condition -/

/-- The source's `needs_llm` expression is equivalent to the spec's
disjunction for all inputs: the extra truthiness guard `regex_otps and ...`
is redundant under the first disjunct. -/
theorem needsLlm_eq_spec (allow : Bool) (otps : List OTPCode)
    (links : List ConfirmationLink) :
    needsLlm allow otps links = specFallbackTrigger allow otps links := by
  cases otps <;> cases links <;> cases allow <;>
    simp [needsLlm, specFallbackTrigger]

/-- C3.  `parse` consults the LLM fallback exactly when the caller permits it
and (the engine found no codes, or the best engine code confidence is below
0.7, or the engine found no links); in particular the demo message — a code
at confidence 1.0 but no links — still triggers the fallback. -/
theorem parse_fallback_trigger (text : String) (html : Option String)
    (useLlm : Bool) (lo : List OTPCode) (ll : List ConfirmationLink) :
    ((parse text html useLlm lo ll).metadata.used_llm
      = specFallbackTrigger useLlm (extract_otps_regex (combinedText text html))
          (extract_links_regex (combinedText text html))) ∧
    (parse demoText none true lo ll).metadata.used_llm = true := by
  constructor
  · exact needsLlm_eq_spec useLlm _ _
  · show needsLlm true (extract_otps_regex (combinedText demoText none))
        (extract_links_regex (combinedText demoText none)) = true
    decide

/-! ## C9: the demo message parses to code "123456" at confidence ≥ 0.95 -/

/-- C9.  `parse("Your verification code is: 123456", allowFallback=false)`
returns exactly one code, `"123456"`, whose confidence 1.0 (pattern base
0.95, +0.1 "verification" boost clamped to 1.0, +0.05 six-digit boost
clamped to 1.0) is ≥ 0.95. -/
theorem parse_demo_verification_code :
    (parse demoText none false [] []).otp_codes
      = [⟨"123456", 1, demoText, 0, "regex"⟩] ∧
    ∃ o ∈ (parse demoText none false [] []).otp_codes,
      o.code = "123456" ∧ pct 95 ≤ o.confidence := by
  refine ⟨by decide, ⟨"123456", 1, demoText, 0, "regex"⟩, by decide, rfl, by decide⟩

/-! ## C4: merge semantics (fallback overrides only on strictly greater
confidence; descending output) -/

/-- `dictFind` on a cons cell. -/
theorem dictFind_cons {α : Type} (p : String × α) (d : List (String × α)) (k : String) :
    dictFind (p :: d) k = if p.1 = k then some p.2 else dictFind d k := by
  by_cases hp : p.1 = k <;> simp [dictFind, List.find?, hp]

/-- Looking up the assigned key finds the assigned value. -/
theorem dictFind_assign_self {α : Type} (d : List (String × α)) (k : String) (v : α) :
    dictFind (dictAssign d k v) k = some v := by
  induction d with
  | nil => simp [dictAssign, dictFind_cons]
  | cons p rest ih =>
    by_cases hp : p.1 = k <;> simp [dictAssign, hp, dictFind_cons, ih]

/-- Assignment leaves other keys' lookups unchanged. -/
theorem dictFind_assign_other {α : Type} (d : List (String × α)) (k k' : String)
    (v : α) (hne : k' ≠ k) :
    dictFind (dictAssign d k v) k' = dictFind d k' := by
  induction d with
  | nil => simp [dictAssign, dictFind_cons, dictFind, Ne.symm hne]
  | cons p rest ih =>
    by_cases hp : p.1 = k
    · have : p.1 ≠ k' := by rw [hp]; exact Ne.symm hne
      simp [dictAssign, hp, dictFind_cons, this, Ne.symm hne]
    · by_cases hp' : p.1 = k' <;> simp [dictAssign, hp, dictFind_cons, hp', ih, hne]

/-- Assigning an absent key appends. -/
theorem dictAssign_not_mem {α : Type} (d : List (String × α)) (k : String) (v : α)
    (h : k ∉ d.map Prod.fst) :
    dictAssign d k v = d ++ [(k, v)] := by
  induction d with
  | nil => rfl
  | cons p rest ih =>
    have h1 : k ≠ p.1 := fun he => h (by simp [he])
    have h2 : k ∉ rest.map Prod.fst := fun he => h (by simp [he])
    simp [dictAssign, Ne.symm h1, ih h2]

/-- Assigning a present key preserves the key list. -/
theorem dictAssign_keys_mem {α : Type} (d : List (String × α)) (k : String) (v : α)
    (h : k ∈ d.map Prod.fst) :
    (dictAssign d k v).map Prod.fst = d.map Prod.fst := by
  induction d with
  | nil => simp at h
  | cons p rest ih =>
    by_cases hp : p.1 = k
    · simp [dictAssign, hp]
    · simp only [List.map_cons, List.mem_cons] at h
      rcases h with h | h
    
      · exact absurd h.symm hp
      · simp [dictAssign, hp, ih h]

/-- Every entry of an assignment is the new pair or an old entry. -/
theorem mem_dictAssign {α : Type} (d : List (String × α)) (k : String) (v : α)
    (p : String × α) (hmem : p ∈ dictAssign d k v) :
    p = (k, v) ∨ p ∈ d := by
  induction d with
  | nil => simpa [dictAssign] using hmem
  | cons q rest ih =>
    by_cases hq : q.1 = k
    · simp only [dictAssign, hq, if_true, List.mem_cons] at hmem
      rcases hmem with h | h
      · exact Or.inl h
      · exact Or.inr (List.mem_cons_of_mem _ h)
    · simp only [dictAssign, hq, if_false, List.mem_cons] at hmem
      rcases hmem with h | h
      · exact Or.inr (h ▸ List.mem_cons_self _ _)
      · rcases ih h with h' | h'
        · exact Or.inl h'
        · exact Or.inr (List.mem_cons_of_mem _ h')

/-- Assignment preserves duplicate-freedom of the key list. -/
theorem dictAssign_keys_nodup {α : Type} (d : List (String × α)) (k : String) (v : α)
    (h : (d.map Prod.fst).Nodup) :
    ((dictAssign d k v).map Prod.fst).Nodup := by
  by_cases hk : k ∈ d.map Prod.fst
  · rw [dictAssign_keys_mem d k v hk]; exact h
  · rw [dictAssign_not_mem d k v hk]
    simp only [List.map_append, List.map_cons, List.map_nil]
    rw [List.nodup_append]
    exact ⟨h, List.nodup_singleton _, by simpa [List.disjoint_right] using hk⟩

/-- A failed lookup means the key is absent. -/
theorem dictFind_eq_none {α : Type} (d : List (String × α)) (k : String) :
    dictFind d k = none ↔ k ∉ d.map Prod.fst := by
  induction d with
  | nil => simp [dictFind]
  | cons p rest ih =>
    by_cases hp : p.1 = k
    · subst hp
      simp [dictFind_cons]
    · rw [dictFind_cons, if_neg hp, ih]
      simp only [List.map_cons, List.mem_cons]
      constructor
      · intro hnot hor
        rcases hor with h1 | h2
        · exact hp h1.symm
        · exact hnot h2
      · intro hnot h2
        exact hnot (Or.inr h2)

/-- Phase 1 leaves keys outside the inserted batch untouched. -/
theorem mergeAssignPhase_find_untouched {α : Type} (key : α → String) :
    ∀ (xs : List α) (d : List (String × α)) (k : String),
      (∀ x ∈ xs, key x ≠ k) →
      dictFind (mergeAssignPhase key d xs) k = dictFind d k := by
  intro xs
  induction xs with
  | nil => intro d k _; rfl
  | cons y ys ih =>
    intro d k hk
    have hy : key y ≠ k := hk y (List.mem_cons_self _ _)
    have hys : ∀ x ∈ ys, key x ≠ k := fun x hx => hk x (List.mem_cons_of_mem _ hx)
    show dictFind (mergeAssignPhase key (dictAssign d (key y) y) ys) k = dictFind d k
    rw [ih (dictAssign d (key y) y) k hys, dictFind_assign_other d (key y) k y (Ne.symm hy)]

/-- After phase 1 over a key-unique batch, each batch element is found at its
key. -/
theorem mergeAssignPhase_find_mem {α : Type} (key : α → String) :
    ∀ (xs : List α) (d : List (String × α)) (e : α),
      e ∈ xs → (xs.map key).Nodup →
      dictFind (mergeAssignPhase key d xs) (key e) = some e := by
  intro xs
  induction xs with
  | nil => intro d e he _; simp at he
  | cons y ys ih =>
    intro d e he hnd
    rcases List.mem_cons.mp he with rfl | hmem
    · have hnot : key e ∉ ys.map key := by
        simpa using (List.nodup_cons.mp hnd).1
      have hys : ∀ x ∈ ys, key x ≠ key e := by
        intro x hx hcontra
        exact hnot (hcontra ▸ List.mem_map_of_mem key hx)
      show dictFind (mergeAssignPhase key (dictAssign d (key e) e) ys) (key e) = some e
      rw [mergeAssignPhase_find_untouched key ys _ _ hys, dictFind_assign_self]
    · exact ih (dictAssign d (key y) y) e hmem (List.nodup_cons.mp hnd).2

/-- Phase 1 preserves the all-entries-keyed-by-value invariant. -/
theorem mergeAssignPhase_entries {α : Type} (key : α → String) :
    ∀ (xs : List α) (d : List (String × α)),
      (∀ p ∈ d, p.1 = key p.2) →
      ∀ p ∈ mergeAssignPhase key d xs, p.1 = key p.2 := by
  intro xs
  induction xs with
  | nil => intro d hd; exact hd
  | cons y ys ih =>
    intro d hd
    refine ih (dictAssign d (key y) y) ?_
    intro p hp
    rcases mem_dictAssign d (key y) y p hp with rfl | hp'
    · rfl
    · exact hd p hp'

/-- Phase 1 preserves key-list duplicate-freedom. -/
theorem mergeAssignPhase_keys_nodup {α : Type} (key : α → String) :
    ∀ (xs : List α) (d : List (String × α)),
      (d.map Prod.fst).Nodup →
      ((mergeAssignPhase key d xs).map Prod.fst).Nodup := by
  intro xs
  induction xs with
  | nil => intro d hd; exact hd
  | cons y ys ih =>
    intro d hd
    exact ih (dictAssign d (key y) y) (dictAssign_keys_nodup d (key y) y hd)

/-- One phase-2 step leaves other keys' lookups unchanged. -/
theorem mergeStep2_find_other {α : Type} (key : α → String) (conf : α → ℚ)
    (d : List (String × α)) (y : α) (k : String) (hk : k ≠ key y) :
    dictFind (mergeStep2 key conf d y) k = dictFind d k := by
  unfold mergeStep2
  cases dictFind d (key y) with
  | none => exact dictFind_assign_other d (key y) k y hk
  | some e =>
    by_cases hc : conf e < conf y
    · simp only [hc, if_true, if_pos hc]
      exact dictFind_assign_other d (key y) k y hk
    · simp [hc]

/-- Phase 2 leaves keys outside the LLM batch untouched. -/
theorem mergePhase2_find_untouched {α : Type} (key : α → String) (conf : α → ℚ) :
    ∀ (ys : List α) (d : List (String × α)) (k : String),
      (∀ x ∈ ys, key x ≠ k) →
      dictFind (ys.foldl (mergeStep2 key conf) d) k = dictFind d k := by
  intro ys
  induction ys with
  | nil => intro d k _; rfl
  | cons y ys' ih =>
    intro d k hk
    have hy : key y ≠ k := hk y (List.mem_cons_self _ _)
    have hys : ∀ x ∈ ys', key x ≠ k := fun x hx => hk x (List.mem_cons_of_mem _ hx)
    show dictFind (ys'.foldl (mergeStep2 key conf) (mergeStep2 key conf d y)) k = dictFind d k
    rw [ih (mergeStep2 key conf d y) k hys,
      mergeStep2_find_other key conf d y k (Ne.symm hy)]

/-- After phase 2 over a key-unique LLM batch: for a key already bound to
`e` and an LLM element `lx` at the same key, the dict binds the key to `lx`
exactly when `conf lx` is strictly greater, else still to `e`. -/
theorem mergePhase2_find_mem {α : Type} (key : α → String) (conf : α → ℚ) :
    ∀ (ys : List α) (d : List (String × α)) (e lx : α),
      lx ∈ ys → (ys.map key).Nodup → dictFind d (key lx) = some e →
      dictFind (ys.foldl (mergeStep2 key conf) d) (key lx)
        = some (if conf e < conf lx then lx else e) := by
  intro ys
  induction ys with
  | nil => intro d e lx hl _ _; simp at hl
  | cons y ys' ih =>
    intro d e lx hl hnd hfind
    rcases List.mem_cons.mp hl with rfl | hmem
    · have hnot : key lx ∉ ys'.map key := by
        simpa using (List.nodup_cons.mp hnd).1
      have hys : ∀ x ∈ ys', key x ≠ key lx := by
        intro x hx hcontra
        exact hnot (hcontra ▸ List.mem_map_of_mem key hx)
      show dictFind (ys'.foldl (mergeStep2 key conf) (mergeStep2 key conf d lx)) (key lx) = _
      rw [mergePhase2_find_untouched key conf ys' _ _ hys]
      unfold mergeStep2
      rw [hfind]
      by_cases hc : conf e < conf lx
      · simp only [hc, if_true, if_pos hc]
        exact dictFind_assign_self d (key lx) lx
      · simp only [hc, if_false, if_neg hc]
        exact hfind
    · have hy : key y ≠ key lx := by
        intro hcontra
        exact (by simpa using (List.nodup_cons.mp hnd).1 : key y ∉ ys'.map key)
          (hcontra ▸ List.mem_map_of_mem key hmem)
    
      show dictFind (ys'.foldl (mergeStep2 key conf) (mergeStep2 key conf d y)) (key lx) = _
      refine ih (mergeStep2 key conf d y) e lx hmem (List.nodup_cons.mp hnd).2 ?_
      rw [mergeStep2_find_other key conf d y (key lx) (Ne.symm hy)]
      exact hfind

/-- Phase 2 preserves the all-entries-keyed-by-value invariant. -/
theorem mergePhase2_entries {α : Type} (key : α → String) (conf : α → ℚ) :
    ∀ (ys : List α) (d : List (String × α)),
      (∀ p ∈ d, p.1 = key p.2) →
      ∀ p ∈ ys.foldl (mergeStep2 key conf) d, p.1 = key p.2 := by
  intro ys
  induction ys with
  | nil => intro d hd; exact hd
  | cons y ys' ih =>
    intro d hd
    refine ih (mergeStep2 key conf d y) ?_
    intro p hp
    rcases hfind : dictFind d (key y) with _ | e
    · have hstep : mergeStep2 key conf d y = dictAssign d (key y) y := by
        unfold mergeStep2; rw [hfind]
      rw [hstep] at hp
      rcases mem_dictAssign d (key y) y p hp with rfl | hp'
      · rfl
      · exact hd p hp'
    · have hstep : mergeStep2 key conf d y
          = if conf e < conf y then dictAssign d (key y) y else d := by
        unfold mergeStep2; rw [hfind]
      rw [hstep] at hp
      by_cases hc : conf e < conf y
      · rw [if_pos hc] at hp
        rcases mem_dictAssign d (key y) y p hp with rfl | hp'
        · rfl
        · exact hd p hp'
      · rw [if_neg hc] at hp
        exact hd p hp

/-- Phase 2 preserves key-list duplicate-freedom. -/
theorem mergePhase2_keys_nodup {α : Type} (key : α → String) (conf : α → ℚ) :
    ∀ (ys : List α) (d : List (String × α)),
      (d.map Prod.fst).Nodup →
      ((ys.foldl (mergeStep2 key conf) d).map Prod.fst).Nodup := by
  intro ys
  induction ys with
  | nil => intro d hd; exact hd
  | cons y ys' ih =>
    intro d hd
    refine ih (mergeStep2 key conf d y) ?_
    rcases hfind : dictFind d (key y) with _ | e
    · have hstep : mergeStep2 key conf d y = dictAssign d (key y) y := by
        unfold mergeStep2; rw [hfind]
      rw [hstep]
      exact dictAssign_keys_nodup d (key y) y hd
    · have hstep : mergeStep2 key conf d y
          = if conf e < conf y then dictAssign d (key y) y else d := by
        unfold mergeStep2; rw [hfind]
      rw [hstep]
      by_cases hc : conf e < conf y
      · rw [if_pos hc]
        exact dictAssign_keys_nodup d (key y) y hd
      · rw [if_neg hc]
        exact hd

/-- In a well-formed dict, the looked-up value is the unique value carrying
its key. -/
theorem dictFind_unique_value {α : Type} (key : α → String) :
    ∀ (d : List (String × α)) (k : String) (v : α),
      (∀ p ∈ d, p.1 = key p.2) → ((d.map Prod.fst).Nodup) →
      dictFind d k = some v →
      v ∈ d.map Prod.snd ∧ ∀ w ∈ d.map Prod.snd, key w = k → w = v := by
  intro d
  induction d with
  | nil => intro k v _ _ hfind; simp [dictFind] at hfind
  | cons p rest ih =>
    intro k v hent hnd hfind
    rw [dictFind_cons] at hfind
    by_cases hp : p.1 = k
    · rw [if_pos hp] at hfind
      injection hfind with hv
      constructor
      · simp only [List.map_cons, List.mem_cons]
        exact Or.inl hv.symm
      · intro w hw hkw
        simp only [List.map_cons, List.mem_cons] at hw
        rcases hw with hw | hw
        · rw [← hv, hw]
        · exfalso
          rcases List.mem_map.mp hw with ⟨q, hq, hq2⟩
          have : q.1 = k := by
            rw [hent q (List.mem_cons_of_mem _ hq), hq2, hkw]
          have hmem : k ∈ rest.map Prod.fst := this ▸ List.mem_map_of_mem Prod.fst hq
          have := (List.nodup_cons.mp hnd).1
          rw [hp] at this
          exact this hmem
    · rw [if_neg hp] at hfind
      obtain ⟨hm, hu⟩ := ih k v (fun q hq => hent q (List.mem_cons_of_mem _ hq))
        (List.nodup_cons.mp hnd).2 hfind
      constructor
      · simp only [List.map_cons, List.mem_cons]
        exact Or.inr hm
      · intro w hw hkw
        simp only [List.map_cons, List.mem_cons] at hw
        rcases hw with hw | hw
        · exfalso
          apply hp
          rw [hent p (List.mem_cons_self _ _), ← hw]
          exact hkw
        · exact hu w hw hkw

/-- The merge core: with key-unique inputs, for an engine element `e` and a
fallback element `lx` sharing its key, the merged list contains the fallback
element exactly when its confidence is strictly greater (else the engine
element), and that winner is the only element of the output at this key. -/
theorem mergeByKey_spec {α : Type} (key : α → String) (conf : α → ℚ)
    (first second : List α)
    (hnd1 : (first.map key).Nodup) (hnd2 : (second.map key).Nodup)
    (e lx : α) (he : e ∈ first) (hl : lx ∈ second) (hk : key lx = key e) :
    ((if conf e < conf lx then lx else e) ∈ mergeByKey key conf first second) ∧
    (∀ x ∈ mergeByKey key conf first second, key x = key e →
      x = if conf e < conf lx then lx else e) := by
  have hfind1 : dictFind (mergeAssignPhase key [] first) (key e) = some e :=
    mergeAssignPhase_find_mem key first [] e he hnd1
  have hfind1' : dictFind (mergeAssignPhase key [] first) (key lx) = some e := by
    rw [hk]; exact hfind1
  have hfind2 : dictFind
      (second.foldl (mergeStep2 key conf) (mergeAssignPhase key [] first)) (key lx)
        = some (if conf e < conf lx then lx else e) :=
    mergePhase2_find_mem key conf second _ e lx hl hnd2 hfind1'
  rw [hk] at hfind2
  have hent : ∀ p ∈ second.foldl (mergeStep2 key conf) (mergeAssignPhase key [] first),
      p.1 = key p.2 :=
    mergePhase2_entries key conf second _
      (mergeAssignPhase_entries key first [] (by intro p hp; simp at hp))
  have hndk : ((second.foldl (mergeStep2 key conf)
      (mergeAssignPhase key [] first)).map Prod.fst).Nodup :=
    mergePhase2_keys_nodup key conf second _
      (mergeAssignPhase_keys_nodup key first [] (by simp))
  obtain ⟨hmem, huniq⟩ := dictFind_unique_value key _ (key e) _ hent hndk hfind2
  have hperm : List.Perm (mergeByKey key conf first second)
      ((second.foldl (mergeStep2 key conf) (mergeAssignPhase key [] first)).map Prod.snd) :=
    List.perm_insertionSort _ _
  constructor
  · exact hperm.mem_iff.mpr hmem
  · intro x hx hkx
    exact huniq x (hperm.mem_iff.mp hx) hkx

/-- The merged output is sorted by confidence, descending. -/
theorem mergeByKey_sorted {α : Type} (key : α → String) (conf : α → ℚ)
    (first second : List α) :
    (mergeByKey key conf first second).Pairwise (fun a b => conf b ≤ conf a) := by
  haveI : IsTotal α (fun a b => conf b ≤ conf a) :=
    ⟨fun a b => le_total (conf b) (conf a)⟩
  haveI : IsTrans α (fun a b => conf b ≤ conf a) :=
    ⟨fun _ _ _ h1 h2 => le_trans h2 h1⟩
  exact List.sorted_insertionSort _ _

set_option maxHeartbeats 1000000 in
/-- C4.  In `_merge_otps` (keyed by code) and `_merge_links` (keyed by URL),
with key-unique inputs: when the engine and the fallback both produced an
item for a key, the merged list keeps the fallback item iff its confidence
is strictly greater — an exact tie or lower keeps the engine item — and
contains no other item for that key; and both merged outputs are sorted by
confidence descending. -/
theorem merge_fallback_strict_override
    (regexO llmO : List OTPCode) (regexL llmL : List ConfirmationLink)
    (e l : OTPCode) (el ll : ConfirmationLink)
    (hndO1 : (regexO.map OTPCode.code).Nodup)
    (hndO2 : (llmO.map OTPCode.code).Nodup)
    (heO : e ∈ regexO) (hlO : l ∈ llmO) (hkO : l.code = e.code)
    (hndL1 : (regexL.map ConfirmationLink.url).Nodup)
    (hndL2 : (llmL.map ConfirmationLink.url).Nodup)
    (heL : el ∈ regexL) (hlL : ll ∈ llmL) (hkL : ll.url = el.url) :
    ((if e.confidence < l.confidence then l else e) ∈ _merge_otps regexO llmO ∧
      ∀ x ∈ _merge_otps regexO llmO, x.code = e.code →
        x = if e.confidence < l.confidence then l else e) ∧
    ((if el.confidence < ll.confidence then ll else el) ∈ _merge_links regexL llmL ∧
      ∀ x ∈ _merge_links regexL llmL, x.url = el.url →
        x = if el.confidence < ll.confidence then ll else el) ∧
    (_merge_otps regexO llmO).Pairwise (fun a b => b.confidence ≤ a.confidence) ∧
    (_merge_links regexL llmL).Pairwise (fun a b => b.confidence ≤ a.confidence) :=
  ⟨mergeByKey_spec (fun o => o.code) (fun o => o.confidence) regexO llmO
      hndO1 hndO2 e l heO hlO hkO,
   mergeByKey_spec (fun x => x.url) (fun x => x.confidence) regexL llmL
      hndL1 hndL2 el ll heL hlL hkL,
   mergeByKey_sorted _ _ regexO llmO,
   mergeByKey_sorted _ _ regexL llmL⟩

/-- Witness for C4 at the spec's own example: engine code "111111" at 0.5
with fallback at 0.9 merges to the fallback item; with fallback at 0.5 (an
exact tie) the engine item is kept. -/
theorem merge_fallback_strict_override_witness :
    ((⟨"111111", pct 90, "", -1, "llm"⟩ : OTPCode)
        ∈ _merge_otps [⟨"111111", pct 50, "ctx", 0, "regex"⟩]
            [⟨"111111", pct 90, "", -1, "llm"⟩]) ∧
    (∀ x ∈ _merge_otps [⟨"111111", pct 50, "ctx", 0, "regex"⟩]
        [⟨"111111", pct 50, "", -1, "llm"⟩],
      x.code = "111111" → x = ⟨"111111", pct 50, "ctx", 0, "regex"⟩) := by
  constructor
  · have h := (merge_fallback_strict_override
      [⟨"111111", pct 50, "ctx", 0, "regex"⟩] [⟨"111111", pct 90, "", -1, "llm"⟩]
      [⟨"https://x.io/a", LinkType.generic, pct 50, "", "", "regex"⟩]
      [⟨"https://x.io/a", LinkType.generic, pct 60, "", "", "llm"⟩]
      ⟨"111111", pct 50, "ctx", 0, "regex"⟩ ⟨"111111", pct 90, "", -1, "llm"⟩
      ⟨"https://x.io/a", LinkType.generic, pct 50, "", "", "regex"⟩
      ⟨"https://x.io/a", LinkType.generic, pct 60, "", "", "llm"⟩
      (by decide) (by decide) (by decide) (by decide) rfl
      (by decide) (by decide) (by decide) (by decide) rfl).1.1
    rwa [if_pos (by decide : (pct 50 : ℚ) < pct 90)] at h
  · have h := (merge_fallback_strict_override
      [⟨"111111", pct 50, "ctx", 0, "regex"⟩] [⟨"111111", pct 50, "", -1, "llm"⟩]
      [⟨"https://x.io/a", LinkType.generic, pct 50, "", "", "regex"⟩]
      [⟨"https://x.io/a", LinkType.generic, pct 60, "", "", "llm"⟩]
      ⟨"111111", pct 50, "ctx", 0, "regex"⟩ ⟨"111111", pct 50, "", -1, "llm"⟩
      ⟨"https://x.io/a", LinkType.generic, pct 50, "", "", "regex"⟩
      ⟨"https://x.io/a", LinkType.generic, pct 60, "", "", "llm"⟩
      (by decide) (by decide) (by decide) (by decide) rfl
      (by decide) (by decide) (by decide) (by decide) rfl).1.2
    intro x hx hcode
    have := h x hx hcode
    rwa [if_neg (by decide : ¬ (pct 50 : ℚ) < pct 50)] at this

/-! ## C8 / C10: fallback failure modes and the 0.5 threshold -/

/-- A `foldl` preserves any invariant its step preserves. -/
theorem foldl_preserve {β σ : Type} (P : σ → Prop) (f : σ → β → σ)
    (hf : ∀ s b, P s → P (f s b)) :
    ∀ (l : List β) (s : σ), P s → P (l.foldl f s) := by
  intro l
  induction l with
  | nil => intro s hs; exact hs
  | cons b rest ih => intro s hs; exact ih (f s b) (hf s b hs)

/-- The OTP inner-loop step only ever appends codes that passed the
`confidence >= 0.5` guard. -/
theorem otpMatchStep_min_conf (t : List Char) (base : ℚ)
    (st : List OTPCode × List String) (m : MatchInfo)
    (h : ∀ o ∈ st.1, pct 50 ≤ o.confidence) :
    ∀ o ∈ (otpMatchStep t base st m).1, pct 50 ≤ o.confidence := by
  intro o ho
  simp only [otpMatchStep] at ho
  split at ho
  · exact h o ho
  · split at ho
    next hcond =>
      rcases List.mem_append.mp ho with h1 | h2
      · exact h o h1
      · rw [List.mem_singleton.mp h2]
        exact hcond
    next => exact h o ho

/-- The link inner-loop step only ever appends links that passed the
`confidence >= 0.5` guard. -/
theorem linkMatchStep_min_conf (t : List Char) (lt : LinkType) (base : ℚ)
    (st : List ConfirmationLink × List String) (m : MatchInfo)
    (h : ∀ lk ∈ st.1, pct 50 ≤ lk.confidence) :
    ∀ lk ∈ (linkMatchStep t lt base st m).1, pct 50 ≤ lk.confidence := by
  intro lk hlk
  simp only [linkMatchStep] at hlk
  split at hlk
  · exact h lk hlk
  · split at hlk
    next hcond =>
      rcases List.mem_append.mp hlk with h1 | h2
      · exact h lk h1
      · rw [List.mem_singleton.mp h2]
        exact hcond
    next => exact h lk hlk

/-- Every regex-extracted code has confidence ≥ 0.5. -/
theorem extract_otps_regex_min_conf (text : String) :
    ∀ o ∈ extract_otps_regex text, pct 50 ≤ o.confidence := by
  intro o ho
  have hperm : List.Perm
      (sortOtpsByConfDesc ((otp_patterns.foldl
        (fun st pr => (finditer pr.1 text.data).foldl (otpMatchStep text.data pr.2) st)
        ([], [])).1))
      ((otp_patterns.foldl
        (fun st pr => (finditer pr.1 text.data).foldl (otpMatchStep text.data pr.2) st)
        ([], [])).1) :=
    List.perm_insertionSort _ _
  have ho' := hperm.mem_iff.mp ho
  refine foldl_preserve (fun st => ∀ o ∈ st.1, pct 50 ≤ o.confidence)
    (fun st pr => (finditer pr.1 text.data).foldl (otpMatchStep text.data pr.2) st)
    ?_ otp_patterns ([], []) ?_ o ho'
  · intro st pr hst
    exact foldl_preserve _ (otpMatchStep text.data pr.2)
      (fun st' m h' => otpMatchStep_min_conf text.data pr.2 st' m h')
      (finditer pr.1 text.data) st hst
  · intro o ho
    simp at ho

/-- Every regex-extracted link has confidence ≥ 0.5. -/
theorem extract_links_regex_min_conf (text : String) :
    ∀ lk ∈ extract_links_regex text, pct 50 ≤ lk.confidence := by
  intro lk hlk
  have hperm : List.Perm
      (sortLinksByConfDesc ((link_patterns.foldl
        (fun st pr => (finditer pr.1 text.data).foldl
          (linkMatchStep text.data pr.2.1 pr.2.2) st) ([], [])).1))
      ((link_patterns.foldl
        (fun st pr => (finditer pr.1 text.data).foldl
          (linkMatchStep text.data pr.2.1 pr.2.2) st) ([], [])).1) :=
    List.perm_insertionSort _ _
  have hlk' := hperm.mem_iff.mp hlk
  refine foldl_preserve (fun st => ∀ lk ∈ st.1, pct 50 ≤ lk.confidence)
    (fun st pr => (finditer pr.1 text.data).foldl
      (linkMatchStep text.data pr.2.1 pr.2.2) st)
    ?_ link_patterns ([], []) ?_ lk hlk'
  · intro st pr hst
    exact foldl_preserve _ (linkMatchStep text.data pr.2.1 pr.2.2)
      (fun st' m h' => linkMatchStep_min_conf text.data pr.2.1 pr.2.2 st' m h')
      (finditer pr.1 text.data) st hst
  · intro lk hlk
    simp at hlk

/-- Every code accepted by the LLM validation loop has its confidence
clamped into `[0, 1]` — the 0.5 threshold is never applied. -/
theorem validateOtpItems_bounds :
    ∀ (items : List JValue) (l : List OTPCode),
      validateOtpItems items = some l →
      ∀ o ∈ l, 0 ≤ o.confidence ∧ o.confidence ≤ 1 := by
  intro items
  induction items with
  | nil =>
    intro l hl o ho
    simp only [validateOtpItems, Option.some.injEq] at hl
    subst hl
    simp at ho
  | cons item rest ih =>
    intro l hl o ho
    cases item with
    | obj fields =>
      simp only [validateOtpItems] at hl
      split at hl
      · exact ih l hl o ho
      · split at hl
        next => exact absurd hl (by simp)
        next c0 hfloat =>
          split at hl
          next => exact absurd hl (by simp)
          next tail htail =>
            injection hl with hl
            subst hl
            rcases List.mem_cons.mp ho with rfl | hmem
            · constructor
              · show (0 : ℚ) ≤ qmax 0 (qmin 1 c0)
                rw [qmax_eq]
                exact le_max_left 0 _
              · show qmax 0 (qmin 1 c0) ≤ 1
                rw [qmax_eq, qmin_eq]
                exact max_le zero_le_one (min_le_left 1 c0)
            · exact ih tail htail o hmem
    | null => exact ih l (by simpa [validateOtpItems] using hl) o ho
    | bool b => exact ih l (by simpa [validateOtpItems] using hl) o ho
    | num q => exact ih l (by simpa [validateOtpItems] using hl) o ho
    | str s => exact ih l (by simpa [validateOtpItems] using hl) o ho
    | arr a => exact ih l (by simpa [validateOtpItems] using hl) o ho

/-- Phase 1 over fresh keys is an append of keyed pairs. -/
theorem mergeAssignPhase_append {α : Type} (key : α → String) :
    ∀ (xs : List α) (d : List (String × α)),
      (xs.map key).Nodup → (∀ x ∈ xs, key x ∉ d.map Prod.fst) →
      mergeAssignPhase key d xs = d ++ xs.map (fun x => (key x, x)) := by
  intro xs
  induction xs with
  | nil => intro d _ _; simp [mergeAssignPhase]
  | cons y ys ih =>
    intro d hnd hfresh
    have h1 : dictAssign d (key y) y = d ++ [(key y, y)] :=
      dictAssign_not_mem d (key y) y (hfresh y (List.mem_cons_self _ _))
    have h2 : ∀ x ∈ ys, key x ∉ (d ++ [(key y, y)]).map Prod.fst := by
      intro x hx
      simp only [List.map_append, List.mem_append, List.map_cons, List.map_nil,
        List.mem_singleton]
      push_neg
      refine ⟨hfresh x (List.mem_cons_of_mem _ hx), ?_⟩
      intro hcontra
      exact (by simpa using (List.nodup_cons.mp hnd).1 : key y ∉ ys.map key)
        (hcontra ▸ List.mem_map_of_mem key hx)
    show mergeAssignPhase key (dictAssign d (key y) y) ys = _
    rw [h1, ih (d ++ [(key y, y)]) (List.nodup_cons.mp hnd).2 h2]
    simp

/-- Merging with an empty fallback list returns the (key-unique, already
sorted) engine list unchanged: the parse falls back to the regex-only
result. -/
theorem mergeByKey_empty {α : Type} (key : α → String) (conf : α → ℚ)
    (xs : List α) (hnd : (xs.map key).Nodup)
    (hsort : xs.Pairwise (fun a b => conf b ≤ conf a)) :
    mergeByKey key conf xs [] = xs := by
  show List.insertionSort _
    ((([] : List α).foldl (mergeStep2 key conf) (mergeAssignPhase key [] xs)).map
      Prod.snd) = xs
  have h1 : mergeAssignPhase key [] xs = xs.map (fun x => (key x, x)) := by
    rw [mergeAssignPhase_append key xs [] hnd (by simp)]
    simp
  show List.insertionSort _ ((mergeAssignPhase key [] xs).map Prod.snd) = xs
  rw [h1, List.map_map]
  have h2 : (Prod.snd ∘ fun x : α => (key x, x)) = id := rfl
  rw [h2, List.map_id]
  exact List.Sorted.insertionSort_eq hsort

/-- C8.  Every fallback failure mode — missing API key, transport
error/timeout, non-200 status, unreadable response body, missing content
text, a reply not starting with `[`, a JSON parse error, a parsed value that
is not an array, or elements failing field validation — makes the fallback
extractors return `[]` (they never raise); and merging the regex results
with `[]` returns the regex-only results unchanged, so a fallback failure
never fails the overall parse. -/
theorem llm_fallback_fails_open
    (apiKey : String) (jsonLoads : String → Option JValue) (outcome : LlmOutcome)
    (status : Nat) (body : Option JValue) (j : JValue) (content : String)
    (regexO : List OTPCode) (regexL : List ConfirmationLink) :
    (extract_otps_llm "" jsonLoads outcome = []
      ∧ extract_links_llm "" jsonLoads outcome = []) ∧
    (extract_otps_llm apiKey jsonLoads LlmOutcome.netError = []
      ∧ extract_links_llm apiKey jsonLoads LlmOutcome.netError = []) ∧
    (status ≠ 200 →
      extract_otps_llm apiKey jsonLoads (LlmOutcome.resp status body) = []
      ∧ extract_links_llm apiKey jsonLoads (LlmOutcome.resp status body) = []) ∧
    (extract_otps_llm apiKey jsonLoads (LlmOutcome.resp 200 none) = []
      ∧ extract_links_llm apiKey jsonLoads (LlmOutcome.resp 200 none) = []) ∧
    (firstContentText j = none →
      extract_otps_llm apiKey jsonLoads (LlmOutcome.resp 200 (some j)) = []
      ∧ extract_links_llm apiKey jsonLoads (LlmOutcome.resp 200 (some j)) = []) ∧
    (firstContentText j = some content →
      startsWithStr (stripCodeFences content) "[" = false →
      extract_otps_llm apiKey jsonLoads (LlmOutcome.resp 200 (some j)) = []
      ∧ extract_links_llm apiKey jsonLoads (LlmOutcome.resp 200 (some j)) = []) ∧
    (firstContentText j = some content →
      jsonLoads (stripCodeFences content) = none →
      extract_otps_llm apiKey jsonLoads (LlmOutcome.resp 200 (some j)) = []
      ∧ extract_links_llm apiKey jsonLoads (LlmOutcome.resp 200 (some j)) = []) ∧
    (firstContentText j = some content →
      ∀ v, jsonLoads (stripCodeFences content) = some v →
      (∀ items, v ≠ JValue.arr items) →
      extract_otps_llm apiKey jsonLoads (LlmOutcome.resp 200 (some j)) = []
      ∧ extract_links_llm apiKey jsonLoads (LlmOutcome.resp 200 (some j)) = []) ∧
    (validateOtpItems [JValue.str "x", JValue.obj [("code", JValue.str "abc")]]
      = some []) ∧
    ((regexO.map OTPCode.code).Nodup →
      regexO.Pairwise (fun a b => b.confidence ≤ a.confidence) →
      _merge_otps regexO [] = regexO) ∧
    ((regexL.map ConfirmationLink.url).Nodup →
      regexL.Pairwise (fun a b => b.confidence ≤ a.confidence) →
      _merge_links regexL [] = regexL) := by
  refine ⟨?_, ?_, ?_, ?_, ?_, ?_, ?_, ?_, ?_, ?_, ?_⟩
  · exact ⟨by simp [extract_otps_llm], by simp [extract_links_llm]⟩
  · by_cases hk : apiKey = "" <;>
      exact ⟨by simp [extract_otps_llm, hk], by simp [extract_links_llm, hk]⟩
  · intro h
    by_cases hk : apiKey = "" <;>
      exact ⟨by simp [extract_otps_llm, hk, h], by simp [extract_links_llm, hk, h]⟩
  · by_cases hk : apiKey = "" <;>
      exact ⟨by simp [extract_otps_llm, hk], by simp [extract_links_llm, hk]⟩
  · intro h
    by_cases hk : apiKey = "" <;>
      exact ⟨by simp [extract_otps_llm, hk, h], by simp [extract_links_llm, hk, h]⟩
  · intro hct hsw
    by_cases hk : apiKey = "" <;>
      exact ⟨by simp [extract_otps_llm, hk, hct, hsw],
             by simp [extract_links_llm, hk, hct, hsw]⟩
  · intro hct hload
    by_cases hk : apiKey = "" <;>
      by_cases hsw : startsWithStr (stripCodeFences content) "[" <;>
      exact ⟨by simp [extract_otps_llm, hk, hct, hload, hsw],
             by simp [extract_links_llm, hk, hct, hload, hsw]⟩
  · intro hct v hload hnotarr
    by_cases hk : apiKey = "" <;>
      by_cases hsw : startsWithStr (stripCodeFences content) "[" <;>
      cases v <;>
      first
        | exact absurd rfl (hnotarr _)
        | exact ⟨by simp [extract_otps_llm, hk, hct, hload, hsw],
                 by simp [extract_links_llm, hk, hct, hload, hsw]⟩
  · decide
  · intro hnd hsort
    exact mergeByKey_empty _ _ regexO hnd hsort
  · intro hnd hsort
    exact mergeByKey_empty _ _ regexL hnd hsort

/-- Witness for C8: a 404 response yields empty fallback results, and the
merge of a concrete one-element regex result with `[]` is unchanged. -/
theorem llm_fallback_fails_open_witness :
    (extract_otps_llm "k" (fun _ => none) (LlmOutcome.resp 404 none) = []
      ∧ extract_links_llm "k" (fun _ => none) (LlmOutcome.resp 404 none) = []) ∧
    _merge_otps [⟨"9999", pct 60, "", 0, "regex"⟩] []
      = [⟨"9999", pct 60, "", 0, "regex"⟩] := by
  constructor
  · exact (llm_fallback_fails_open "k" (fun _ => none) LlmOutcome.netError 404 none
      JValue.null "" [] []).2.2.1 (by decide)
  · exact (llm_fallback_fails_open "k" (fun _ => none) LlmOutcome.netError 404 none
      JValue.null "" [⟨"9999", pct 60, "", 0, "regex"⟩]
      []).2.2.2.2.2.2.2.2.2.1 (by decide) (by simp)

/-- C10.  The 0.5 discard threshold applies only to regex-extracted items:
regex codes and links all have confidence ≥ 0.5, while a field-valid
fallback item is accepted with any clamped confidence in `[0, 1]`
(defaulting to 0.8 when the `confidence` field is absent), so a ParseResult
can contain a fallback-sourced code with confidence below 0.5. -/
theorem confidence_threshold_regex_only
    (text : String) (items : List JValue) (l : List OTPCode) :
    (∀ o ∈ extract_otps_regex text, pct 50 ≤ o.confidence) ∧
    (∀ lk ∈ extract_links_regex text, pct 50 ≤ lk.confidence) ∧
    (validateOtpItems items = some l →
      ∀ o ∈ l, 0 ≤ o.confidence ∧ o.confidence ≤ 1) ∧
    (validateOtpItems [JValue.obj [("code", JValue.str "1234")]]
      = some [⟨"1234", pct 80, "", -1, "llm"⟩]) ∧
    (extract_otps_llm "key"
        (fun _ => some (JValue.arr [JValue.obj
          [("code", JValue.str "1234"), ("confidence", JValue.num (mkRat 3 10))]]))
        (LlmOutcome.resp 200 (some (JValue.obj [("content", JValue.arr
          [JValue.obj [("text", JValue.str "[x]")]])])))
      = [⟨"1234", mkRat 3 10, "", -1, "llm"⟩]) ∧
    ((parse "" none true [⟨"1234", mkRat 3 10, "", -1, "llm"⟩] []).otp_codes
      = [⟨"1234", mkRat 3 10, "", -1, "llm"⟩]) ∧
    mkRat 3 10 < pct 50 := by
  refine ⟨extract_otps_regex_min_conf text, extract_links_regex_min_conf text,
    validateOtpItems_bounds items l, by decide, by decide, by decide, by decide⟩

/-- Witness for C10: the regex bound applied at the demo extraction, and the
validation bounds applied at a concrete item lacking a confidence field. -/
theorem confidence_threshold_regex_only_witness :
    pct 50 ≤ (⟨"123456", 1, demoText, 0, "regex"⟩ : OTPCode).confidence ∧
    (0 ≤ (pct 80 : ℚ) ∧ (pct 80 : ℚ) ≤ 1) := by
  constructor
  · exact (confidence_threshold_regex_only demoText [] []).1
      ⟨"123456", 1, demoText, 0, "regex"⟩ (by decide)
  · exact ((confidence_threshold_regex_only ""
      [JValue.obj [("code", JValue.str "1234")]]
      [⟨"1234", pct 80, "", -1, "llm"⟩]).2.2.1 (by decide)
      ⟨"1234", pct 80, "", -1, "llm"⟩ (by decide))
